import Mathlib

/-!
# file-sink-s3: a directory view over a flat object store

A shallow embedding of `lib/file-sink-s3.mjs` and `lib/find-methods.mjs`.

* JavaScript strings are lists of code units (`Str`).
* `this.client.send(command)` is an oracle `S3Client`; every operation returns a
  `Run`: the commands it sent, in order, and how it ended.
* The three functions of Node's `path` module the sink calls (`basename`,
  `dirname`, `join`) are embedded in their POSIX form.
* Callbacks (`addCallbackToPromise`) only observe the promise and are left out.

Definitions come first, sample data next, theorems last.
-/

namespace FileSinkS3

/-- A JavaScript string: the list of its code units. -/
abbrev Str := List Char

/-! ## String primitives -/

/-- JavaScript `s.startsWith('/')`. -/
def startsWithSlash : Str → Bool
  | c :: _ => c == '/'
  | [] => false

/-- JavaScript `s.endsWith('/')`. -/
def endsWithSlash (s : Str) : Bool :=
  s.getLast? == some '/'

/-- Search loop of `s.indexOf(needle)`: the first position, counted from `i`, at which
`needle` starts, or `-1`. -/
def indexOfFrom (needle : Str) : Str → Nat → Int
  | [], i => if needle.isPrefixOf [] then (i : Int) else -1
  | c :: rest, i =>
    if needle.isPrefixOf (c :: rest) then (i : Int) else indexOfFrom needle rest (i + 1)

/-- JavaScript `s.indexOf(needle)`. -/
def indexOf (s needle : Str) : Int :=
  indexOfFrom needle s 0

/-! ## Node's POSIX `path` functions -/

/-- Splits a string at every `/`; the result is never empty. -/
def splitSegments : Str → List Str
  | [] => [[]]
  | c :: rest =>
    match splitSegments rest with
    | [] => if c == '/' then [[], []] else [[c]]
    | seg :: segs => if c == '/' then [] :: seg :: segs else (c :: seg) :: segs

/-- One step of `normalizeString`: `res` is the stack of segments kept so far, last one
first; `seg` is the next segment of the input. -/
def normalizeStep (allowAboveRoot : Bool) (res : List Str) (seg : Str) : List Str :=
  if seg == [] || seg == ['.'] then res
  else if seg == ['.', '.'] then
    match res with
    | [] => if allowAboveRoot then [['.', '.']] else []
    | last :: before =>
      if last == ['.', '.'] then
        (if allowAboveRoot then ['.', '.'] :: last :: before else last :: before)
      else before
  else seg :: res

/-- Node's `normalizeString(path, allowAboveRoot, '/')`: drops empty and `.` segments and
resolves `..` segments. -/
def normalizeString (path : Str) (allowAboveRoot : Bool) : Str :=
  List.intercalate ['/'] ((splitSegments path).foldl (normalizeStep allowAboveRoot) []).reverse

/-- Node's `path.posix.normalize`. -/
def normalize (path : Str) : Str :=
  if path == [] then ['.']
  else
    let isAbsolute := startsWithSlash path
    let trailingSeparator := endsWithSlash path
    let p := normalizeString path (!isAbsolute)
    if p == [] then
      (if isAbsolute then ['/'] else if trailingSeparator then ['.', '/'] else ['.'])
    else
      let p := if trailingSeparator then p ++ ['/'] else p
      if isAbsolute then '/' :: p else p

/-- Node's `path.posix.join(a, b)`: the non-empty arguments joined by `/`, normalized. -/
def join (a b : Str) : Str :=
  if a == [] && b == [] then ['.']
  else if a == [] then normalize b
  else if b == [] then normalize a
  else normalize (a ++ '/' :: b)

/-- Node's `path.posix.basename(path)`: trailing separators are skipped, then the
characters back to the previous separator are taken. -/
def basename (path : Str) : Str :=
  ((path.reverse.dropWhile (· == '/')).takeWhile (· != '/')).reverse

/-- Node's `path.posix.dirname(path)`. The scan runs from the end down to index 1: it
skips trailing separators, then a run of other characters, and cuts at the separator it
meets next. -/
def dirname (path : Str) : Str :=
  match path with
  | [] => ['.']
  | c :: rest =>
    match (rest.reverse.dropWhile (· == '/')).dropWhile (· != '/') with
    | [] => if c == '/' then ['/'] else ['.']
    | _ :: before =>
      if c == '/' && before.isEmpty then ['/', '/'] else c :: before.reverse

/-! Values of the three functions, as Node computes them. -/

example : basename "a/b/c.txt".toList = "c.txt".toList := by decide
example : basename "dir/".toList = "dir".toList := by decide
example : basename "///".toList = [] := by decide
example : dirname "a/b/c.txt".toList = "a/b".toList := by decide
example : dirname "a".toList = ".".toList := by decide
example : dirname "/a".toList = "/".toList := by decide
example : dirname "//a".toList = "//".toList := by decide
example : dirname "a//b".toList = "a/".toList := by decide
example : dirname "dir/".toList = ".".toList := by decide
example : join ".".toList "a.txt".toList = "a.txt".toList := by decide
example : join "a/".toList "b".toList = "a/b".toList := by decide
example : join "a/../b".toList "c/".toList = "b/c/".toList := by decide
example : join "".toList "".toList = ".".toList := by decide
example : join "/".toList "x".toList = "/x".toList := by decide
example : join "..".toList "..".toList = "../..".toList := by decide

/-! ## The backend: commands, replies, errors -/

/-- An entry of `Contents` in a listing reply. `LastModified` is the date as epoch
milliseconds. -/
structure S3Object where
  Key : Str
  Size : Nat
  LastModified : Nat
  deriving DecidableEq, Repr

/-- An entry of `CommonPrefixes` in a listing reply. -/
structure CommonPrefix where
  Prefix : Str
  deriving DecidableEq, Repr

/-- Input of `ListObjectsV2Command`. -/
structure ListObjectsV2Input where
  Bucket : Str
  Prefix : Str
  Delimiter : Option Str
  ContinuationToken : Option Str
  deriving DecidableEq, Repr

/-- Reply to `ListObjectsV2Command`. The SDK leaves `Contents` and `CommonPrefixes`
undefined (`none`) when the page has none of them. -/
structure ListObjectsV2Output where
  Contents : Option (List S3Object)
  CommonPrefixes : Option (List CommonPrefix)
  NextContinuationToken : Option Str
  IsTruncated : Bool
  deriving DecidableEq, Repr

/-- Reply to `DeleteObjectsCommand`: the keys reported as deleted, when present. -/
structure DeleteObjectsOutput where
  Deleted : Option (List Str)
  deriving DecidableEq, Repr

/-- A command handed to `client.send`. Bodies are byte lists. -/
inductive Command where
  | getObject (Bucket Key : Str)
  | putObject (Bucket Key : Str) (Body : List Nat)
  | deleteObjects (Bucket : Str) (Objects : List Str)
  | listObjectsV2 (input : ListObjectsV2Input)
  deriving DecidableEq, Repr

/-- A value that is thrown or that a promise is rejected with. -/
inductive JSError where
  /-- `new Error(message)` -/
  | error (message : Str)
  /-- evaluation of an identifier that is bound nowhere -/
  | referenceError (identifier : Str)
  /-- an error raised by `client.send` -/
  | backend (code : Nat)
  /-- a delete reply used as the rejection value by `rm` -/
  | response (r : DeleteObjectsOutput)
  deriving DecidableEq, Repr

/-- The S3 client as seen by the sink: what `await this.client.send(command)` yields for
each kind of command. -/
structure S3Client where
  getObject : Str → Str → Except JSError (List Nat)
  putObject : Str → Str → List Nat → Except JSError Unit
  deleteObjects : Str → List Str → Except JSError DeleteObjectsOutput
  listObjectsV2 : ListObjectsV2Input → Except JSError ListObjectsV2Output

/-- How a call ended: a synchronous `throw`, a rejected promise, or a resolved promise. -/
inductive Outcome (α : Type) where
  | threw (e : JSError)
  | rejected (e : JSError)
  | resolved (value : α)
  deriving DecidableEq, Repr

/-- Trace of a call: the commands sent to the backend, in order, and the outcome
(`none` while the promise is not settled). -/
structure Run (α : Type) where
  requests : List Command
  outcome : Option (Outcome α)
  deriving DecidableEq, Repr

namespace Run

/-- `resolve(value)`: settles the promise unless it is settled already. -/
def resolve {α : Type} (value : α) (r : Run α) : Run α :=
  match r.outcome with
  | none => { r with outcome := some (Outcome.resolved value) }
  | some _ => r

/-- `reject(e)`: settles the promise unless it is settled already. -/
def reject {α : Type} (e : JSError) (r : Run α) : Run α :=
  match r.outcome with
  | none => { r with outcome := some (Outcome.rejected e) }
  | some _ => r

/-- Records one `client.send(command)`. -/
def sent {α : Type} (command : Command) (r : Run α) : Run α :=
  { r with requests := r.requests ++ [command] }

/-- A call that has sent nothing and is not settled. -/
def start {α : Type} : Run α :=
  { requests := [], outcome := none }

end Run

/-! ## The sink -/

/-- The fields of a `FileSinkS3` instance the operations read; `pfx` is `this.prefix`. -/
structure Sink where
  bucket : Str
  pfx : Str
  deriving DecidableEq, Repr

/-- The `stat` object of a node; `{}` is `Stat.empty`. -/
structure Stat where
  size : Option Nat
  mtime : Option Nat
  mtimeMs : Option Nat
  deriving DecidableEq, Repr

/-- The `stat` of a synthesized directory: `{}`. -/
def Stat.empty : Stat :=
  { size := none, mtime := none, mtimeMs := none }

/-- A node as built by `_makeContentsNode` and `_makeCommonPrefixNode`; these never set
`children`. -/
structure Node where
  name : Str
  parent : Str
  stat : Stat
  directory : Bool
  relPath : Str
  accessUrl : Str
  deriving DecidableEq, Repr

/-- The object `getFullFileInfo` resolves with: a node, with `children` present only
when the directory branch built it. -/
structure FileInfo extends Node where
  children : Option (List Node)
  deriving DecidableEq, Repr

/-- `isAllowedPath(path)`. -/
def isAllowedPath (path : Str) : Bool :=
  if indexOf path ['.', '.'] > -1 then false else true

/-- `_createCombinedPath(path)`. -/
def _createCombinedPath (sink : Sink) (path : Str) : Str :=
  let path := if startsWithSlash path then path.drop 1 else path
  sink.pfx ++ path

/-- First loop of `_removeSlashes`: drop leading separators. -/
def dropLeadingSlashes : Str → Str
  | [] => []
  | c :: rest => if c == '/' then dropLeadingSlashes rest else c :: rest

/-- Second loop of `_removeSlashes`: drop trailing separators. -/
def dropTrailingSlashes : Str → Str
  | [] => []
  | c :: rest =>
    match dropTrailingSlashes rest with
    | [] => if c == '/' then [] else [c]
    | kept => c :: kept

/-- `_removeSlashes(path)`. -/
def _removeSlashes (path : Str) : Str :=
  dropTrailingSlashes (dropLeadingSlashes path)

/-- `_determineAccessUrl(combinedPath)`. -/
def _determineAccessUrl (sink : Sink) (combinedPath : Str) : Str :=
  dropTrailingSlashes
    ("https://".toList ++ sink.bucket ++ ".s3.amazonaws.com/".toList ++ combinedPath)

/-- The value `_addAccessUrl` stores in `node.accessUrl`. -/
def _addAccessUrl (sink : Sink) (parent name : Str) : Str :=
  _determineAccessUrl sink (join parent name)

/-- `_makeContentsNode(content, parentPath)`; `parentPath = none` is a call without the
second argument. An empty `parentPath` is falsy and takes the same branch. -/
def _makeContentsNode (sink : Sink) (content : S3Object) (parentPath : Option Str) : Node :=
  let endsWithSlash := endsWithSlash content.Key
  let name := basename content.Key
  let parent := dirname content.Key
  let relPath :=
    match parentPath with
    | some (c :: cs) => join (c :: cs) name
    | _ => (join parent name).drop sink.pfx.length
  let relPath := _removeSlashes relPath
  let directory := endsWithSlash && content.Size == 0
  let parent := if parent == ['.'] then [] else parent
  { name := name
    parent := parent
    stat := { size := some content.Size
              mtime := some content.LastModified
              mtimeMs := some content.LastModified }
    directory := directory
    relPath := relPath
    accessUrl := _addAccessUrl sink parent name }

/-- `_makeCommonPrefixNode(prefix, parentPath)`. -/
def _makeCommonPrefixNode (sink : Sink) (p : CommonPrefix) (parentPath : Str) : Node :=
  let name := basename p.Prefix
  let parent := dirname p.Prefix
  { name := name
    parent := parent
    stat := Stat.empty
    directory := true
    relPath := _removeSlashes (join parentPath name)
    accessUrl := _addAccessUrl sink parent name }

/-! ## `getFullFileInfo` -/

/-- The test `data.Contents && data.Contents.length == 1 && data.Contents[0].Key == combined`;
yields the entry when it holds. -/
def exactMatch (data : ListObjectsV2Output) (combined : Str) : Option S3Object :=
  match data.Contents with
  | some [content] => if content.Key == combined then some content else none
  | _ => none

/-- The test `data.CommonPrefixes && data.CommonPrefixes.length == 1 &&
data.CommonPrefixes[0].Prefix == combined + '/'`. -/
def singlePrefixWithSlash (data : ListObjectsV2Output) (combined : Str) : Bool :=
  match data.CommonPrefixes with
  | some [p] => p.Prefix == combined ++ ['/']
  | _ => false

/-- The test `data.NextContinuationToken && data.IsTruncated`; an empty token is falsy. -/
def hasMore (data : ListObjectsV2Output) : Bool :=
  (match data.NextContinuationToken with
   | some (_ :: _) => true
   | _ => false) && data.IsTruncated

/-- The `for (let child of data.Contents)` loop: pushes a node for every entry but the
one whose key is `combined`. -/
def pushContents (sink : Sink) (path combined : Str) (children : List Node)
    (contents : List S3Object) : List Node :=
  contents.foldl
    (fun acc child =>
      if child.Key == combined then acc else acc ++ [_makeContentsNode sink child (some path)])
    children

/-- The `for (let prefix of data.CommonPrefixes)` loop. -/
def pushCommonPrefixes (sink : Sink) (combined : Str) (children : List Node)
    (prefixes : List CommonPrefix) : List Node :=
  prefixes.foldl (fun acc p => acc ++ [_makeCommonPrefixNode sink p combined]) children

/-- One pass over a page inside the `while (true)` loop: both `for` loops, each guarded
by the presence of its field. -/
def pushPage (sink : Sink) (path combined : Str) (children : List Node)
    (data : ListObjectsV2Output) : List Node :=
  let children :=
    match data.Contents with
    | some contents => pushContents sink path combined children contents
    | none => children
  match data.CommonPrefixes with
  | some prefixes => pushCommonPrefixes sink combined children prefixes
  | none => children

/-- The directory object literal of `getFullFileInfo`, with the given `children`. -/
def directoryInfo (sink : Sink) (path combined : Str) (children : List Node) : FileInfo :=
  { name := basename combined
    parent := dirname combined
    stat := Stat.empty
    directory := true
    relPath := _removeSlashes path
    accessUrl := _addAccessUrl sink (dirname combined) (basename combined)
    children := some children }

/-- The tail of the `else` branch of `getFullFileInfo`, from `info = {...}` to the final
`resolve(info)`, run on a promise in state `r`.

The `while (true)` loop handles the page in `data`. When `hasMore data` holds, the loop
builds the next command from `Bucket: bucket`; `bucket` is bound neither in the method
nor in the module, and Node has no global of that name, so evaluating it throws a
`ReferenceError` before anything is sent, and `catch (e)` rejects with it. Otherwise the
loop breaks and `resolve(info)` runs. -/
def aggregate (sink : Sink) (path combined : Str) (data : ListObjectsV2Output)
    (r : Run FileInfo) : Run FileInfo :=
  let info := directoryInfo sink path combined (pushPage sink path combined [] data)
  if hasMore data then r.reject (JSError.referenceError "bucket".toList)
  else r.resolve info

/-- The node of `_makeContentsNode` as the resolved object: no `children` property. -/
def FileInfo.ofNode (n : Node) : FileInfo :=
  { n with children := none }

/-- The first command of `getFullFileInfo`:
`new ListObjectsV2Command({ Bucket: this.bucket, Delimiter: '/', Prefix: combined })`. -/
def delimitedListing (sink : Sink) (combined : Str) : ListObjectsV2Input :=
  { Bucket := sink.bucket, Delimiter := some ['/'], Prefix := combined,
    ContinuationToken := none }

/-- Body of `getFullFileInfo(path)`; `self` is the method itself, called at
`await this.getFullFileInfo(path + '/')`. -/
def getFullFileInfoBody (sink : Sink) (client : S3Client) (self : Str → Run FileInfo)
    (path : Str) : Run FileInfo :=
  if !isAllowedPath path then
    { requests := []
      outcome := some (Outcome.rejected (JSError.error ("Path now allowed: ".toList ++ path))) }
  else
    let combined := _createCombinedPath sink path
    let command := delimitedListing sink combined
    let r : Run FileInfo := Run.start.sent (Command.listObjectsV2 command)
    match client.listObjectsV2 command with
    | Except.error e => r.reject e
    | Except.ok data =>
      match exactMatch data combined with
      | some content =>
        r.resolve (FileInfo.ofNode (_makeContentsNode sink content (some (dirname path))))
      | none =>
        if data.Contents.isNone && data.CommonPrefixes.isNone then
          -- the `resolve(info)` that follows finds the promise settled
          r.reject (JSError.error "Path not found.".toList)
        else if !endsWithSlash path && singlePrefixWithSlash data combined then
          let sub := self (path ++ ['/'])
          let r := { r with requests := r.requests ++ sub.requests }
          match sub.outcome with
          | some (Outcome.resolved info) =>
            -- `resolve(info)`, then the code below the `if` still runs
            aggregate sink path combined data (r.resolve info)
          | some (Outcome.rejected e) => r.reject e
          | some (Outcome.threw e) => r.reject e
          | none => r
        else aggregate sink path combined data r

/-- `getFullFileInfo(path)`. The method calls itself only for a `path` that does not end
with `/`, and then with `path + '/'`, so calls nest at most one level deep; that this
is the recursive method is `getFullFileInfo_unfold`. -/
def getFullFileInfo (sink : Sink) (client : S3Client) (path : Str) : Run FileInfo :=
  getFullFileInfoBody sink client
    (getFullFileInfoBody sink client (fun _ => Run.start)) path

/-! ## `read`, `readStream`, `write`, `mkdir`, `rm` -/

/-- `read(path)`: a plain method, so the guard throws synchronously. -/
def read (sink : Sink) (client : S3Client) (path : Str) : Run (List Nat) :=
  if !isAllowedPath path then
    { requests := []
      outcome := some (Outcome.threw (JSError.error ("Path now allowed: ".toList ++ path))) }
  else
    let combined := _createCombinedPath sink path
    let r : Run (List Nat) := Run.start.sent (Command.getObject sink.bucket combined)
    match client.getObject sink.bucket combined with
    | Except.ok bytes => r.resolve bytes
    | Except.error e => r.reject e

/-- `readStream(path)`. `resolved bytes` stands for a stream that delivers `bytes` and
ends, `rejected e` for a stream that emits `error`. -/
def readStream (sink : Sink) (client : S3Client) (path : Str) : Run (List Nat) :=
  if !isAllowedPath path then
    { requests := []
      outcome := some (Outcome.threw (JSError.error ("Path now allowed: ".toList ++ path))) }
  else
    let inner := read sink client path
    match inner.outcome with
    | some (Outcome.threw e) => { requests := inner.requests, outcome := some (Outcome.rejected e) }
    | _ => inner

/-- The `data` argument of `write`. -/
inductive Data where
  | string (s : Str)
  | buffer (bytes : List Nat)
  /-- a `TypedArray` or `DataView` that is not a `Buffer` -/
  | view (bytes : List Nat)
  deriving DecidableEq, Repr

/-- The options object of `write`; an absent property is `none`. -/
structure WriteOptions where
  offset : Option Nat
  length : Option Nat
  position : Option Nat
  deriving DecidableEq, Repr

/-- JavaScript truthiness of an optional number. -/
def truthy : Option Nat → Bool
  | some (_ + 1) => true
  | _ => false

/-- UTF-8 bytes of a string, as `Buffer.from(string)` produces them. -/
def utf8 (s : Str) : List Nat :=
  s.flatMap (fun c => (String.utf8EncodeChar c).map UInt8.toNat)

/-- `_convertToBinary(data)`, with the answer of `Buffer.isBuffer` on the result. -/
def _convertToBinary : Data → List Nat × Bool
  | Data.string s => (utf8 s, true)
  | Data.buffer bytes => (bytes, true)
  | Data.view bytes => (bytes, false)

/-- Node's `Buffer.from(buffer, offset, length)` for a `Buffer` argument: a copy of the
whole buffer; the two numbers are read only when the first argument is an `ArrayBuffer`. -/
def bufferFrom (buffer : List Nat) (_offset : Nat) (_length : Option Nat) : List Nat :=
  buffer

/-- `write(path, data, options)`; `options = none` is a call without an options object. -/
def write (sink : Sink) (client : S3Client) (path : Str) (data : Data)
    (options : Option WriteOptions) : Run Unit :=
  if !isAllowedPath path then
    { requests := []
      outcome := some (Outcome.rejected (JSError.error ("Path now allowed: ".toList ++ path))) }
  else
    let combined := _createCombinedPath sink path
    let options : WriteOptions :=
      options.getD { offset := none, length := none, position := none }
    if truthy options.position then
      { requests := []
        outcome := some (Outcome.rejected (JSError.error "not yet supported".toList)) }
    else
      let converted := _convertToBinary data
      let sendData :=
        if (truthy options.length || truthy options.offset) && converted.2 then
          bufferFrom converted.1 (if truthy options.offset then options.offset.getD 0 else 0)
            options.length
        else converted.1
      let r : Run Unit := Run.start.sent (Command.putObject sink.bucket combined sendData)
      match client.putObject sink.bucket combined sendData with
      | Except.ok _ => r.resolve ()
      | Except.error e => r.reject e

/-- `mkdir(path)`: a plain method, so the guard throws synchronously. -/
def mkdir (sink : Sink) (client : S3Client) (path : Str) : Run Unit :=
  if !isAllowedPath path then
    { requests := []
      outcome := some (Outcome.threw (JSError.error ("Path now allowed: ".toList ++ path))) }
  else
    let path := if !endsWithSlash path then path ++ ['/'] else path
    write sink client path (Data.string []) none

/-- The `while (keys.length > 0)` loop of `rm`. Every pass removes at least one key, so
`fuel = keys.length` passes are enough. -/
def deleteBatches (sink : Sink) (client : S3Client) :
    Nat → List Str → List DeleteObjectsOutput → Run (List DeleteObjectsOutput) →
    Run (List DeleteObjectsOutput)
  | 0, keys, result, r => if keys.length > 0 then r else r.resolve result
  | fuel + 1, keys, result, r =>
    if keys.length > 0 then
      let batchSize := min keys.length 1000
      let batch := keys.take batchSize
      let keys := keys.drop batchSize
      let r := r.sent (Command.deleteObjects sink.bucket batch)
      match client.deleteObjects sink.bucket batch with
      | Except.error e => r.reject e
      | Except.ok response =>
        let result := result ++ [response]
        if response.Deleted.isNone || response.Deleted == some [] then
          r.reject (JSError.response response)
        else deleteBatches sink client fuel keys result r
    else r.resolve result

/-- `rm(path, options)`; `recursive` is `options.recursive` after the default `true` has
been merged in. -/
def rm (sink : Sink) (client : S3Client) (path : Str) (recursive : Bool) :
    Run (List DeleteObjectsOutput) :=
  if !isAllowedPath path then
    { requests := []
      outcome := some (Outcome.rejected (JSError.error ("Path now allowed: ".toList ++ path))) }
  else
    let combined := _createCombinedPath sink path
    if !recursive then
      deleteBatches sink client 1 [combined] [] Run.start
    else
      let command : ListObjectsV2Input :=
        { Bucket := sink.bucket, Prefix := combined, Delimiter := none,
          ContinuationToken := none }
      let r : Run (List DeleteObjectsOutput) := Run.start.sent (Command.listObjectsV2 command)
      match client.listObjectsV2 command with
      | Except.error e => r.reject e
      | Except.ok data =>
        match data.Contents with
        | some (c :: cs) =>
          let keys := (c :: cs).map (fun content => content.Key)
          deleteBatches sink client keys.length keys [] r
        | _ => r.reject (JSError.error "No matching files found to delete.".toList)

/-! ## `find` and `findPaths` -/

/-- What a test function returns: a plain value, or a promise that resolves to one; only
the truthiness of the value matters. -/
inductive TestResult where
  | value (truthy : Bool)
  | promise (truthy : Bool)
  deriving DecidableEq, Repr

/-- A `RegExp` object. `matcher s i` is the pattern's matcher run on `s` at index `i`
exactly: the end index of the match, or `none`. `ref` is the identity of the object (two
patterns with the same `ref` are the same object), `lastIndex` the value of that
property when `find` is called. -/
structure RegExp where
  ref : Nat
  matcher : Str → Nat → Option Nat
  global : Bool
  sticky : Bool
  lastIndex : Nat

/-- The `lastIndex` properties written during a call of `find`, newest first, each under
the `ref` of its object. -/
abbrev Heap := List (Nat × Nat)

/-- The current `lastIndex` of a `RegExp`. -/
def Heap.lastIndex (heap : Heap) (r : RegExp) : Nat :=
  (heap.lookup r.ref).getD r.lastIndex

/-- The assignment `r.lastIndex = i`. -/
def Heap.setLastIndex (heap : Heap) (r : RegExp) (i : Nat) : Heap :=
  (r.ref, i) :: heap

/-- The search loop of `RegExpBuiltinExec`: the matcher is tried at `i`; when it fails, a
sticky pattern gives up and any other goes on to `i + 1`. `fuel` counts the indices still
to try. -/
def RegExp.search (r : RegExp) (s : Str) : Nat → Nat → Option Nat
  | 0, _ => none
  | fuel + 1, i =>
    match r.matcher s i with
    | some e => some e
    | none => if r.sticky then none else RegExp.search r s fuel (i + 1)

/-- `RegExpBuiltinExec` started at `lastIndex`: a pattern without the `g` and `y` flags
starts at 0 instead; a start beyond the end of `s` fails. Yields the end index of the
match. -/
def RegExp.exec (r : RegExp) (s : Str) (lastIndex : Nat) : Option Nat :=
  let start := if r.global || r.sticky then lastIndex else 0
  if start > s.length then none else r.search s (s.length + 1 - start) start

/-- `r.test(s)`: whether `exec` finds a match. With the `g` or `y` flag the call also
writes `lastIndex`: the end of the match, or 0 after a failure. -/
def RegExp.test (r : RegExp) (heap : Heap) (s : Str) : Bool × Heap :=
  match r.exec s (heap.lastIndex r) with
  | some e => (true, if r.global || r.sticky then heap.setLastIndex r e else heap)
  | none => (false, if r.global || r.sticky then heap.setLastIndex r 0 else heap)

/-- A `namePattern` or `pathPattern`: a `RegExp` (a string enters as the `RegExp` that
`new RegExp(pattern)` makes of it, which has no flags), or a function, taken to be a
function of its argument. -/
inductive Pattern where
  | regExp (r : RegExp)
  | function (f : Str → TestResult)

/-- A test as `find` calls it: from the `lastIndex` values so far and the tested string
to the result and the `lastIndex` values after the call. -/
abbrev Test := Heap → Str → TestResult × Heap

/-- `_createTest(pattern)`; `none` is an absent (falsy) pattern and yields no test. A
`RegExp` yields `function (value) { return pattern.test(value) }`. -/
def _createTest : Option Pattern → Option Test
  | none => none
  | some (Pattern.function f) => some (fun heap value => (f value, heap))
  | some (Pattern.regExp r) =>
    some (fun heap value => (TestResult.value (r.test heap value).1, (r.test heap value).2))

/-- The options of `find`, defaults filled in. -/
structure FindOptions where
  file : Bool
  directory : Bool
  namePattern : Option Pattern
  pathPattern : Option Pattern
  startingPath : Str

/-- The options of `find()` called with none. -/
def FindOptions.default : FindOptions :=
  { file := true, directory := true, namePattern := none, pathPattern := none,
    startingPath := [] }

/-- An event of the emitter `find` returns. -/
inductive Event where
  | data (info : Node)
  | done
  | error (e : JSError)
  deriving DecidableEq, Repr

/-- Trace of `find`: the commands sent and the events emitted, in order. -/
structure FindRun where
  requests : List Command
  events : List Event
  deriving DecidableEq, Repr

/-- A call of `match` that is suspended at an `await`: on the promise of the name test or
on the promise of the path test, with the truthiness the promise resolves to. -/
inductive Suspended where
  | onName (truthy : Bool) (path : Str) (info : Node)
  | onPath (truthy : Bool) (info : Node)
  deriving DecidableEq, Repr

/-- How far a call of `match` gets before it returns to its caller or to the microtask
queue: it returns without emitting, it emits, or it is suspended. -/
inductive Step where
  | skipped
  | emitted (info : Node)
  | suspended (s : Suspended)
  deriving DecidableEq, Repr

/-- The second half of `match`, from `if (pathTest)` to `output.emit('data', info)`. -/
def matchPath (pathTest : Option Test) (heap : Heap) (path : Str) (info : Node) :
    Step × Heap :=
  match pathTest with
  | none => (Step.emitted info, heap)
  | some test =>
    match test heap path with
    | (TestResult.value b, heap) => (if b then Step.emitted info else Step.skipped, heap)
    | (TestResult.promise b, heap) => (Step.suspended (Suspended.onPath b info), heap)

/-- The inner function `match(name, path, info)` of `find`, from the call to its first
suspension, if any. -/
def findMatch (options : FindOptions) (heap : Heap) (name path : Str) (info : Node) :
    Step × Heap :=
  if info.directory && !options.directory then (Step.skipped, heap)
  else if !info.directory && !options.file then (Step.skipped, heap)
  else
    match _createTest options.namePattern with
    | none => matchPath (_createTest options.pathPattern) heap path info
    | some test =>
      match test heap name with
      | (TestResult.value b, heap) =>
        if b then matchPath (_createTest options.pathPattern) heap path info
        else (Step.skipped, heap)
      | (TestResult.promise b, heap) => (Step.suspended (Suspended.onName b path info), heap)

/-- A suspended call of `match` taken up again, to its next suspension, if any. -/
def resumeMatch (options : FindOptions) (heap : Heap) : Suspended → Step × Heap
  | Suspended.onName b path info =>
    if b then matchPath (_createTest options.pathPattern) heap path info
    else (Step.skipped, heap)
  | Suspended.onPath b info => (if b then Step.emitted info else Step.skipped, heap)

/-- A stretch of execution without a return to the event loop: the `lastIndex` values,
the events emitted, and the calls of `match` left suspended, in order. -/
structure Phase where
  heap : Heap
  events : List Event
  suspended : List Suspended
  deriving DecidableEq, Repr

/-- Books one call of `match`, or one resumption, into the phase. -/
def Phase.record (p : Phase) (outcome : Step × Heap) : Phase :=
  match outcome.1 with
  | Step.skipped => { p with heap := outcome.2 }
  | Step.emitted info => { p with heap := outcome.2, events := p.events ++ [Event.data info] }
  | Step.suspended s => { p with heap := outcome.2, suspended := p.suspended ++ [s] }

/-- The `for (let child of data.Contents)` loop of `run`: every child is made a node and
handed to `match`, which is not awaited. -/
def matchContents (sink : Sink) (options : FindOptions) (contents : List S3Object) : Phase :=
  contents.foldl
    (fun p child =>
      let node := _makeContentsNode sink child none
      p.record (findMatch options p.heap node.name node.relPath node))
    { heap := [], events := [], suspended := [] }

/-- One round of the microtask queue: the suspended calls of `match` are taken up in the
order in which they were suspended. -/
def resumeAll (options : FindOptions) (heap : Heap) (suspended : List Suspended) : Phase :=
  suspended.foldl (fun p s => p.record (resumeMatch options p.heap s))
    { heap := heap, events := [], suspended := [] }

/-- `find(options)`. `run` is not suspended between the `for` loop and the terminal
`emit`, and `match` is called without `await`: a `match` call that awaits a promise emits
from a later microtask, after the terminal event. The promises the tests return are taken
as settled when they are awaited, so that calls with one suspension emit before calls
with two, each group in listing order. A truncated page sends `run` into
`Bucket: bucket`, an unbound identifier, and the `ReferenceError` is emitted as `error`. -/
def find (sink : Sink) (client : S3Client) (options : FindOptions) : FindRun :=
  let combined := _createCombinedPath sink options.startingPath
  let command : ListObjectsV2Input :=
    { Bucket := sink.bucket, Prefix := combined, Delimiter := none, ContinuationToken := none }
  let requests := [Command.listObjectsV2 command]
  match client.listObjectsV2 command with
  | Except.error e => { requests := requests, events := [Event.error e] }
  | Except.ok data =>
    match data.Contents with
    | none => { requests := requests, events := [Event.done] }
    | some contents =>
      let terminal :=
        if hasMore data then Event.error (JSError.referenceError "bucket".toList)
        else Event.done
      let loop := matchContents sink options contents
      let first := resumeAll options loop.heap loop.suspended
      let second := resumeAll options first.heap first.suspended
      { requests := requests
        events := loop.events ++ [terminal] ++ first.events ++ second.events }

/-- Trace of `findPaths`: `outcome` carries the contents of the array `items` at the
moment the promise was settled, `items` its contents after the last event. -/
structure FindPathsRun where
  requests : List Command
  outcome : Option (Outcome (List Str))
  items : List Str
  deriving DecidableEq, Repr

/-- One listener call of `findPaths`: `data` pushes the `relPath`, `done` resolves with
`items`, `error` rejects; a settled promise stays as it is. -/
def onEvent (r : FindPathsRun) : Event → FindPathsRun
  | Event.data info => { r with items := r.items ++ [info.relPath] }
  | Event.done =>
    (match r.outcome with
     | none => { r with outcome := some (Outcome.resolved r.items) }
     | some _ => r)
  | Event.error e =>
    (match r.outcome with
     | none => { r with outcome := some (Outcome.rejected e) }
     | some _ => r)

/-- `findPaths(options)`: the three listeners run over the events of `find`, in order. -/
def findPaths (sink : Sink) (client : S3Client) (options : FindOptions) : FindPathsRun :=
  let run := find sink client options
  run.events.foldl onEvent { requests := run.requests, outcome := none, items := [] }

/-! ## A reference backend

`storeClient store` answers listings the way S3 documents `ListObjectsV2` for a bucket
holding `store` (in key order) that fits in one page: the keys that start with `Prefix`
are reported in `Contents`, except that keys containing the delimiter after the prefix
are rolled up, once each, into `CommonPrefixes`. -/

/-- The part of `rest` up to and including the first occurrence of `delimiter`. -/
def upToDelimiter (delimiter : Str) : Str → Option Str
  | [] => if delimiter.isPrefixOf [] then some delimiter else none
  | c :: rest =>
    if delimiter.isPrefixOf (c :: rest) then some delimiter
    else (upToDelimiter delimiter rest).map (fun s => c :: s)

/-- Sorts one key into the reply under construction. -/
def listStep (input : ListObjectsV2Input)
    (acc : List S3Object × List CommonPrefix) (o : S3Object) : List S3Object × List CommonPrefix :=
  if input.Prefix.isPrefixOf o.Key then
    let rest := o.Key.drop input.Prefix.length
    match input.Delimiter.bind (fun d => upToDelimiter d rest) with
    | some group =>
      let p : CommonPrefix := { Prefix := input.Prefix ++ group }
      if acc.2.contains p then acc else (acc.1, acc.2 ++ [p])
    | none => (acc.1 ++ [o], acc.2)
  else acc

/-- The one-page listing of `store`. -/
def listStore (store : List S3Object) (input : ListObjectsV2Input) : ListObjectsV2Output :=
  let found := store.foldl (listStep input) ([], [])
  { Contents := if found.1.isEmpty then none else some found.1
    CommonPrefixes := if found.2.isEmpty then none else some found.2
    NextContinuationToken := none
    IsTruncated := false }

/-- A client over a fixed store; only listings are answered from it. -/
def storeClient (store : List S3Object) : S3Client :=
  { getObject := fun _ _ => Except.error (JSError.backend 404)
    putObject := fun _ _ _ => Except.ok ()
    deleteObjects := fun _ keys => Except.ok { Deleted := some keys }
    listObjectsV2 := fun input => Except.ok (listStore store input) }

/-! ## Sample data -/

/-- A sink rooted at `root/` in bucket `b`. -/
def exampleSink : Sink :=
  { bucket := "b".toList, pfx := "root/".toList }

/-- A bucket with one object outside the sink root, reached through `..`. -/
def outsideStore : List S3Object :=
  [{ Key := "root/../other/secret.txt".toList, Size := 9, LastModified := 0 }]

/-- A listing of `root/dir/` cut in two pages: the first page is truncated and carries
the continuation token `t1`. -/
def firstPage : ListObjectsV2Output :=
  { Contents := some [{ Key := "root/dir/a.txt".toList, Size := 1, LastModified := 0 }]
    CommonPrefixes := none
    NextContinuationToken := some "t1".toList
    IsTruncated := true }

/-- The page the backend holds ready for the token `t1`. -/
def secondPage : ListObjectsV2Output :=
  { Contents := some [{ Key := "root/dir/b.txt".toList, Size := 2, LastModified := 0 }]
    CommonPrefixes := none
    NextContinuationToken := none
    IsTruncated := false }

/-- A backend that serves `firstPage`, and `secondPage` on a request with a token. -/
def twoPageClient : S3Client :=
  { getObject := fun _ _ => Except.error (JSError.backend 404)
    putObject := fun _ _ _ => Except.ok ()
    deleteObjects := fun _ keys => Except.ok { Deleted := some keys }
    listObjectsV2 := fun input =>
      if input.ContinuationToken == none then Except.ok firstPage else Except.ok secondPage }

/-- The directory of the test suite: three objects in `testdir/` and one nested
directory. -/
def testdirStore : List S3Object :=
  [{ Key := "root/testdir/data1.txt".toList, Size := 4, LastModified := 0 },
   { Key := "root/testdir/data2.txt".toList, Size := 4, LastModified := 0 },
   { Key := "root/testdir/data3.txt".toList, Size := 4, LastModified := 0 },
   { Key := "root/testdir/sub/x.txt".toList, Size := 4, LastModified := 0 }]

/-- A file and a second object whose key extends the file's key. -/
def siblingStore : List S3Object :=
  [{ Key := "root/data1.txt".toList, Size := 4, LastModified := 0 },
   { Key := "root/data1.txt.bak".toList, Size := 7, LastModified := 0 }]

/-- The bucket after `mkdir('testdir')` on an empty sink: the zero-byte marker only. -/
def markerStore : List S3Object :=
  [{ Key := "root/testdir/".toList, Size := 0, LastModified := 0 }]

/-- A bucket with the single object `root/data1.txt` of 4 bytes. -/
def singleStore : List S3Object :=
  [{ Key := "root/data1.txt".toList, Size := 4, LastModified := 0 }]

/-! ## Predicates on results -/

/-- A node whose `name` does not end with a separator and whose `relPath` neither
begins nor ends with one. -/
def Node.Trimmed (n : Node) : Prop :=
  endsWithSlash n.name = false ∧ endsWithSlash n.relPath = false ∧
    startsWithSlash n.relPath = false

/-- A resolved `FileInfo` whose own node and whose children are all trimmed. -/
def FileInfo.Trimmed (info : FileInfo) : Prop :=
  info.toNode.Trimmed ∧ ∀ child ∈ info.children.getD [], child.Trimmed

/-! ## Sample writes -/

/-- The options `{ position: 0 }`. -/
def positionZero : WriteOptions :=
  { offset := none, length := none, position := some 0 }

/-- The options `{ position: 10 }` of the test suite. -/
def positionTen : WriteOptions :=
  { offset := none, length := none, position := some 10 }

/-- The options `{ offset: 1, length: 2 }`. -/
def offsetOneLengthTwo : WriteOptions :=
  { offset := some 1, length := some 2, position := none }

/-! ## Sample searches -/

/-- The test `name.indexOf('data') > -1` of the test suite, as a plain function. -/
def nameHasData : Pattern :=
  Pattern.function (fun name => TestResult.value (decide (indexOf name "data".toList > -1)))

/-- The test `async function(name) { return name.indexOf('2') > -1 }` of the test suite:
every call returns a promise. -/
def pathHasTwoAsync : Pattern :=
  Pattern.function (fun path => TestResult.promise (decide (indexOf path "2".toList > -1)))

/-- The options of the test `find all data paths with function`, second variant: a plain
name test and an asynchronous path test. -/
def asyncPathOptions : FindOptions :=
  { FindOptions.default with namePattern := some nameHasData,
                             pathPattern := some pathHasTwoAsync }

/-- A bucket with `data1.txt` and `data2.txt` under the sink root. -/
def twoFileStore : List S3Object :=
  [{ Key := "root/data1.txt".toList, Size := 4, LastModified := 0 },
   { Key := "root/data2.txt".toList, Size := 4, LastModified := 0 }]

/-! ## The filter of `find`, in the words of its documentation -/

/-- Whether a `RegExp` matches `value`: a match starts at some index of `value`. -/
def RegExp.matches (r : RegExp) (value : Str) : Bool :=
  ((List.range (value.length + 1)).any (fun i => (r.matcher value i).isSome))

/-- Whether `value` satisfies a pattern: an absent pattern always passes, a `RegExp`
passes when it matches `value`, a function when what it returns, or what the promise it
returns resolves to, is truthy. -/
def satisfies : Option Pattern → Str → Bool
  | none, _ => true
  | some (Pattern.regExp r), value => r.matches value
  | some (Pattern.function f), value =>
    match f value with
    | TestResult.value b => b
    | TestResult.promise b => b

/-- A pattern whose test is synchronous and keeps nothing between calls: it is absent,
a `RegExp` without the `g` and `y` flags (as every string pattern is), or a function that
never returns a promise. -/
def Stateless : Option Pattern → Prop
  | none => True
  | some (Pattern.regExp r) => r.global = false ∧ r.sticky = false
  | some (Pattern.function f) => ∀ value, ∃ b, f value = TestResult.value b

/-- Whether a node is to be emitted: its type is selected (`directory` for a directory
node, `file` for a file node), its name satisfies the name pattern and its `relPath`
satisfies the path pattern. -/
def passes (options : FindOptions) (node : Node) : Bool :=
  (if node.directory then options.directory else options.file)
    && satisfies options.namePattern node.name
    && satisfies options.pathPattern node.relPath

/-- The command of `find` and of recursive `rm`:
`new ListObjectsV2Command({ Bucket: this.bucket, Prefix: combined })`. -/
def undelimitedListing (sink : Sink) (combined : Str) : ListObjectsV2Input :=
  { Bucket := sink.bucket, Prefix := combined, Delimiter := none, ContinuationToken := none }

/-- The options of the test `find all data paths with function`: a plain name test. -/
def nameOptions : FindOptions :=
  { FindOptions.default with namePattern := some nameHasData }

/-- The regular expression `/data/`, or `/data/g` when `global` is set, fresh
(`lastIndex` 0): its matcher succeeds at `i` when `data` stands there. -/
def dataRegExp (global : Bool) : RegExp :=
  { ref := 0
    matcher := fun s i =>
      if "data".toList.isPrefixOf (s.drop i) then some (i + 4) else none
    global := global
    sticky := false
    lastIndex := 0 }

/-- The options of the test `find all data paths with real regexp`; `global` adds the
`g` flag. -/
def regExpOptions (global : Bool) : FindOptions :=
  { FindOptions.default with namePattern := some (Pattern.regExp (dataRegExp global)) }

/-- The bucket of the test suite when `find all data paths` runs: five objects named
`data…` and the marker of `testdir`. -/
def findStore : List S3Object :=
  [{ Key := "root/data1.txt".toList, Size := 4, LastModified := 0 },
   { Key := "root/data2.txt".toList, Size := 0, LastModified := 0 },
   { Key := "root/testdir/".toList, Size := 0, LastModified := 0 },
   { Key := "root/testdir/data1.txt".toList, Size := 4, LastModified := 0 },
   { Key := "root/testdir/data2.txt".toList, Size := 4, LastModified := 0 },
   { Key := "root/testdir/data3.txt".toList, Size := 4, LastModified := 0 }]

/-! ## The batches of `rm`, in the words of its documentation -/

/-- The consecutive chunks of `keys` of at most 1000 elements each; `fuel` bounds their
number. -/
def chunksAux : Nat → List Str → List (List Str)
  | 0, _ => []
  | fuel + 1, keys =>
    if keys.length > 0 then keys.take 1000 :: chunksAux fuel (keys.drop 1000) else []

/-- The partition of `keys` into batches of at most 1000. -/
def chunks (keys : List Str) : List (List Str) :=
  chunksAux keys.length keys

/-- The number of deleted objects a reply reports. -/
def deletedCount (response : DeleteObjectsOutput) : Nat :=
  (response.Deleted.getD []).length

/-- The key list `rm` goes on to delete, when it gets that far: the combined path alone
when `recursive` is off, else the keys of the `Contents` of the listing, which must
hold at least one. -/
def keysToDelete (sink : Sink) (client : S3Client) (path : Str) (recursive : Bool) :
    Option (List Str) :=
  if !recursive then some [_createCombinedPath sink path]
  else
    match client.listObjectsV2 (undelimitedListing sink (_createCombinedPath sink path)) with
    | Except.ok data =>
      (match data.Contents with
       | some (c :: cs) => some ((c :: cs).map (fun content => content.Key))
       | _ => none)
    | Except.error _ => none

/-- What `rm` has sent when it enters the delete loop: the listing, when `recursive` is
on. -/
def sentBeforeDeleting (sink : Sink) (path : Str) (recursive : Bool) : List Command :=
  if recursive then
    [Command.listObjectsV2 (undelimitedListing sink (_createCombinedPath sink path))]
  else []

/-! # Theorems -/

/-! ## The path guard -/

theorem indexOfFrom_gt_iff (needle s : Str) (i : Nat) :
    -1 < indexOfFrom needle s i ↔ needle <:+: s := by
  induction s generalizing i with
  | nil =>
    unfold indexOfFrom
    by_cases h : needle.isPrefixOf [] = true
    · have hp : needle <+: [] := List.isPrefixOf_iff_prefix.mp h
      simp only [h, if_true]
      exact ⟨fun _ => hp.isInfix, fun _ => by omega⟩
    · have hp : ¬ needle <+: [] := fun hp => h (List.isPrefixOf_iff_prefix.mpr hp)
      simp only [h, Bool.false_eq_true, if_false]
      constructor
      · intro hlt
        simp at hlt
      · intro hin
        exact absurd (List.prefix_nil.mpr (List.infix_nil.mp hin)) hp
  | cons c rest ih =>
    unfold indexOfFrom
    rw [List.infix_cons_iff]
    by_cases h : needle.isPrefixOf (c :: rest) = true
    · have hp : needle <+: c :: rest := List.isPrefixOf_iff_prefix.mp h
      simp only [h, if_true]
      exact ⟨fun _ => Or.inl hp, fun _ => by omega⟩
    · have hp : ¬ needle <+: c :: rest := fun hp => h (List.isPrefixOf_iff_prefix.mpr hp)
      simp only [h, Bool.false_eq_true, if_false]
      rw [ih (i + 1)]
      constructor
      · intro hin
        exact Or.inr hin
      · rintro (hpre | hin)
        · exact absurd hpre hp
        · exact hin

/-- `isAllowedPath` rejects exactly the paths that contain `..`. -/
theorem isAllowedPath_eq_false_iff (path : Str) :
    isAllowedPath path = false ↔ ['.', '.'] <:+: path := by
  unfold isAllowedPath indexOf
  rw [← indexOfFrom_gt_iff ['.', '.'] path 0]
  by_cases h : -1 < indexOfFrom ['.', '.'] path 0
  · simp [h]
  · simp [h]

/-- The guard of the six methods that call `isAllowedPath`: on a path containing `..`
each of them fails with the `Path now allowed` error and sends nothing. -/
theorem guarded_methods_reject (sink : Sink) (client : S3Client) (path : Str)
    (h : ['.', '.'] <:+: path) :
    read sink client path
        = ⟨[], some (Outcome.threw (JSError.error ("Path now allowed: ".toList ++ path)))⟩ ∧
    readStream sink client path
        = ⟨[], some (Outcome.threw (JSError.error ("Path now allowed: ".toList ++ path)))⟩ ∧
    (∀ data options, write sink client path data options
        = ⟨[], some (Outcome.rejected (JSError.error ("Path now allowed: ".toList ++ path)))⟩) ∧
    getFullFileInfo sink client path
        = ⟨[], some (Outcome.rejected (JSError.error ("Path now allowed: ".toList ++ path)))⟩ ∧
    (∀ recursive, rm sink client path recursive
        = ⟨[], some (Outcome.rejected (JSError.error ("Path now allowed: ".toList ++ path)))⟩) ∧
    mkdir sink client path
        = ⟨[], some (Outcome.threw (JSError.error ("Path now allowed: ".toList ++ path)))⟩ := by
  have hf : isAllowedPath path = false := (isAllowedPath_eq_false_iff path).mpr h
  refine ⟨?_, ?_, ?_, ?_, ?_, ?_⟩
  · simp [read, hf]
  · simp [readStream, hf]
  · intro data options
    simp [write, hf]
  · simp [getFullFileInfo, getFullFileInfoBody, hf]
  · intro recursive
    simp [rm, hf]
  · simp [mkdir, hf]

/-- C1 (code defect). `find` and `findPaths` have no path guard: with
`startingPath = '../other'`, a path that `isAllowedPath` rejects, `find` sends a listing
for the prefix `root/../other` and `findPaths` resolves with what it lists, where the
claim expects the path-not-allowed error and no backend request. -/
theorem find_skips_path_guard :
    isAllowedPath "../other".toList = false ∧
    (find exampleSink (storeClient outsideStore)
        { FindOptions.default with startingPath := "../other".toList })
      = { requests := [Command.listObjectsV2
            { Bucket := "b".toList, Prefix := "root/../other".toList, Delimiter := none,
              ContinuationToken := none }]
          events := [Event.data (_makeContentsNode exampleSink
              { Key := "root/../other/secret.txt".toList, Size := 9, LastModified := 0 } none),
            Event.done] } ∧
    (findPaths exampleSink (storeClient outsideStore)
        { FindOptions.default with startingPath := "../other".toList }).outcome
      = some (Outcome.resolved ["secret.txt".toList]) := by
  decide

/-! ## The branches of `getFullFileInfo` -/

theorem endsWithSlash_append_slash (path : Str) : endsWithSlash (path ++ ['/']) = true := by
  simp [endsWithSlash]

/-- Once the promise is settled, the rest of the `else` branch changes neither the
outcome nor the requests. -/
theorem aggregate_of_settled (sink : Sink) (path combined : Str) (data : ListObjectsV2Output)
    (r : Run FileInfo) (out : Outcome FileInfo) (h : r.outcome = some out) :
    aggregate sink path combined data r = r := by
  unfold aggregate
  by_cases hm : hasMore data = true
  · simp [hm, Run.reject, h]
  · simp [hm, Run.resolve, h]

/-- What `aggregate` does to a pending promise. -/
theorem aggregate_of_pending (sink : Sink) (path combined : Str) (data : ListObjectsV2Output)
    (requests : List Command) :
    aggregate sink path combined data { requests := requests, outcome := none }
      = { requests := requests
          outcome := some (if hasMore data then
              Outcome.rejected (JSError.referenceError "bucket".toList)
            else Outcome.resolved
              (directoryInfo sink path combined (pushPage sink path combined [] data))) } := by
  unfold aggregate
  by_cases hm : hasMore data = true
  · simp [hm, Run.reject]
  · simp [hm, Run.resolve]

/-- The guard branch of `getFullFileInfoBody`. -/
theorem getFullFileInfoBody_not_allowed (sink : Sink) (client : S3Client)
    (self : Str → Run FileInfo) (path : Str) (hallowed : isAllowedPath path = false) :
    getFullFileInfoBody sink client self path
      = { requests := []
          outcome := some
            (Outcome.rejected (JSError.error ("Path now allowed: ".toList ++ path))) } := by
  unfold getFullFileInfoBody
  simp [hallowed]

/-- The `catch` branch of `getFullFileInfoBody` for a failed listing. -/
theorem getFullFileInfoBody_list_error (sink : Sink) (client : S3Client)
    (self : Str → Run FileInfo) (path : Str) (e : JSError)
    (hallowed : isAllowedPath path = true)
    (hlist : client.listObjectsV2 (delimitedListing sink (_createCombinedPath sink path))
      = Except.error e) :
    getFullFileInfoBody sink client self path
      = { requests := [Command.listObjectsV2
            (delimitedListing sink (_createCombinedPath sink path))]
          outcome := some (Outcome.rejected e) } := by
  unfold getFullFileInfoBody
  simp only [hallowed, hlist]
  simp [Run.reject, Run.sent, Run.start]

/-- The exact-match branch of `getFullFileInfoBody`. -/
theorem getFullFileInfoBody_exact (sink : Sink) (client : S3Client)
    (self : Str → Run FileInfo) (path : Str) (data : ListObjectsV2Output)
    (content : S3Object)
    (hallowed : isAllowedPath path = true)
    (hlist : client.listObjectsV2 (delimitedListing sink (_createCombinedPath sink path))
      = Except.ok data)
    (hexact : exactMatch data (_createCombinedPath sink path) = some content) :
    getFullFileInfoBody sink client self path
      = { requests := [Command.listObjectsV2
            (delimitedListing sink (_createCombinedPath sink path))]
          outcome := some (Outcome.resolved
            (FileInfo.ofNode (_makeContentsNode sink content (some (dirname path))))) } := by
  unfold getFullFileInfoBody
  simp only [hallowed, hlist, hexact]
  simp [Run.resolve, Run.sent, Run.start]

/-- The not-found branch of `getFullFileInfoBody`. -/
theorem getFullFileInfoBody_not_found (sink : Sink) (client : S3Client)
    (self : Str → Run FileInfo) (path : Str) (data : ListObjectsV2Output)
    (hallowed : isAllowedPath path = true)
    (hlist : client.listObjectsV2 (delimitedListing sink (_createCombinedPath sink path))
      = Except.ok data)
    (hexact : exactMatch data (_createCombinedPath sink path) = none)
    (hnone : (data.Contents.isNone && data.CommonPrefixes.isNone) = true) :
    getFullFileInfoBody sink client self path
      = { requests := [Command.listObjectsV2
            (delimitedListing sink (_createCombinedPath sink path))]
          outcome := some (Outcome.rejected (JSError.error "Path not found.".toList)) } := by
  unfold getFullFileInfoBody
  simp only [hallowed, hlist, hexact, hnone]
  simp [Run.reject, Run.sent, Run.start]

/-- The branch of `getFullFileInfoBody` that calls the method again. -/
theorem getFullFileInfoBody_recursive (sink : Sink) (client : S3Client)
    (self : Str → Run FileInfo) (path : Str) (data : ListObjectsV2Output)
    (hallowed : isAllowedPath path = true)
    (hlist : client.listObjectsV2 (delimitedListing sink (_createCombinedPath sink path))
      = Except.ok data)
    (hexact : exactMatch data (_createCombinedPath sink path) = none)
    (hfound : (data.Contents.isNone && data.CommonPrefixes.isNone) = false)
    (hrec : (!endsWithSlash path
      && singlePrefixWithSlash data (_createCombinedPath sink path)) = true) :
    getFullFileInfoBody sink client self path
      = (match (self (path ++ ['/'])).outcome with
        | some (Outcome.resolved info) =>
          aggregate sink path (_createCombinedPath sink path) data
            (Run.resolve info
              { requests := Command.listObjectsV2
                  (delimitedListing sink (_createCombinedPath sink path))
                  :: (self (path ++ ['/'])).requests
                outcome := none })
        | some (Outcome.rejected e) =>
          { requests := Command.listObjectsV2
              (delimitedListing sink (_createCombinedPath sink path))
              :: (self (path ++ ['/'])).requests
            outcome := some (Outcome.rejected e) }
        | some (Outcome.threw e) =>
          { requests := Command.listObjectsV2
              (delimitedListing sink (_createCombinedPath sink path))
              :: (self (path ++ ['/'])).requests
            outcome := some (Outcome.rejected e) }
        | none =>
          { requests := Command.listObjectsV2
              (delimitedListing sink (_createCombinedPath sink path))
              :: (self (path ++ ['/'])).requests
            outcome := none }) := by
  unfold getFullFileInfoBody
  simp only [hallowed, hlist, hexact, hfound, hrec]
  simp only [Bool.not_true, Bool.false_eq_true, if_false, if_true]
  cases hs : (self (path ++ ['/'])).outcome with
  | none => simp [Run.sent, Run.start]
  | some out =>
    cases out with
    | threw e => simp [Run.reject, Run.sent, Run.start]
    | rejected e => simp [Run.reject, Run.sent, Run.start]
    | resolved info => simp [Run.sent, Run.start]

/-- The default branch of `getFullFileInfoBody`: no exact match, something listed, and
no recursive call. -/
theorem getFullFileInfoBody_default (sink : Sink) (client : S3Client)
    (self : Str → Run FileInfo) (path : Str) (data : ListObjectsV2Output)
    (hallowed : isAllowedPath path = true)
    (hlist : client.listObjectsV2 (delimitedListing sink (_createCombinedPath sink path))
      = Except.ok data)
    (hexact : exactMatch data (_createCombinedPath sink path) = none)
    (hfound : (data.Contents.isNone && data.CommonPrefixes.isNone) = false)
    (hdefault : (!endsWithSlash path
      && singlePrefixWithSlash data (_createCombinedPath sink path)) = false) :
    getFullFileInfoBody sink client self path
      = aggregate sink path (_createCombinedPath sink path) data
          (Run.start.sent (Command.listObjectsV2
            (delimitedListing sink (_createCombinedPath sink path)))) := by
  unfold getFullFileInfoBody
  simp only [hallowed, hlist, hexact, hfound, hdefault]
  simp

/-- On a path that ends with `/` the method does not call itself. -/
theorem getFullFileInfoBody_of_trailing_slash (sink : Sink) (client : S3Client)
    (self self2 : Str → Run FileInfo) (path : Str) (h : endsWithSlash path = true) :
    getFullFileInfoBody sink client self path = getFullFileInfoBody sink client self2 path := by
  unfold getFullFileInfoBody
  simp [h]

/-- The source's recursion: `getFullFileInfo` is its body run with itself at the
recursive call site. -/
theorem getFullFileInfo_unfold (sink : Sink) (client : S3Client) (path : Str) :
    getFullFileInfo sink client path
      = getFullFileInfoBody sink client (getFullFileInfo sink client) path := by
  unfold getFullFileInfo
  by_cases h : endsWithSlash path = true
  · exact getFullFileInfoBody_of_trailing_slash sink client _ _ path h
  · have hself : ∀ self : Str → Run FileInfo,
        getFullFileInfoBody sink client self path
          = getFullFileInfoBody sink client (fun _ => self (path ++ ['/'])) path := by
      intro self
      unfold getFullFileInfoBody
      rfl
    rw [hself (getFullFileInfoBody sink client fun _ => Run.start),
      hself (fun p => getFullFileInfoBody sink client
        (getFullFileInfoBody sink client fun _ => Run.start) p)]
    rw [getFullFileInfoBody_of_trailing_slash sink client
      (getFullFileInfoBody sink client fun _ => Run.start) (fun _ => Run.start)
      (path ++ ['/']) (endsWithSlash_append_slash path)]

/-- On a path that ends with `/` the promise is settled, by `resolve` or by `reject`. -/
theorem getFullFileInfoBody_settles (sink : Sink) (client : S3Client)
    (self : Str → Run FileInfo) (path : Str) (h : endsWithSlash path = true) :
    (∃ info, (getFullFileInfoBody sink client self path).outcome
        = some (Outcome.resolved info)) ∨
    (∃ e, (getFullFileInfoBody sink client self path).outcome
        = some (Outcome.rejected e)) := by
  by_cases ha : isAllowedPath path = true
  · cases hl : client.listObjectsV2 (delimitedListing sink (_createCombinedPath sink path)) with
    | error e =>
      rw [getFullFileInfoBody_list_error sink client self path e ha hl]
      exact Or.inr ⟨e, rfl⟩
    | ok data =>
      cases hx : exactMatch data (_createCombinedPath sink path) with
      | some content =>
        rw [getFullFileInfoBody_exact sink client self path data content ha hl hx]
        exact Or.inl ⟨_, rfl⟩
      | none =>
        by_cases hn : (data.Contents.isNone && data.CommonPrefixes.isNone) = true
        · rw [getFullFileInfoBody_not_found sink client self path data ha hl hx hn]
          exact Or.inr ⟨_, rfl⟩
        · rw [getFullFileInfoBody_default sink client self path data ha hl hx
            (Bool.eq_false_iff.mpr hn) (by simp [h])]
          simp only [Run.sent, Run.start, List.nil_append, aggregate_of_pending]
          by_cases hm : hasMore data = true
          · exact Or.inr ⟨JSError.referenceError "bucket".toList, by simp [hm]⟩
          · exact Or.inl ⟨directoryInfo sink path (_createCombinedPath sink path)
              (pushPage sink path (_createCombinedPath sink path) [] data), by simp [hm]⟩
  · rw [getFullFileInfoBody_not_allowed sink client self path (by simpa using ha)]
    exact Or.inr ⟨_, rfl⟩

/-! ## `getFullFileInfo`: pagination -/

/-- C2 (code defect). On a truncated first page that carries a continuation token,
`getFullFileInfo` sends no follow-up listing: building the next command evaluates the
unbound identifier `bucket`, and the promise is rejected with that `ReferenceError`
after the single first request, where the claim expects the children of all pages. -/
theorem getFullFileInfo_truncated_rejects :
    hasMore firstPage = true ∧
    getFullFileInfo exampleSink twoPageClient "dir/".toList
      = { requests := [Command.listObjectsV2 (delimitedListing exampleSink "root/dir/".toList)]
          outcome := some (Outcome.rejected (JSError.referenceError "bucket".toList)) } := by
  decide

/-- In the directory branch a truncated page that carries a token always ends the call
with the `ReferenceError`, after the first request. -/
theorem getFullFileInfo_truncated_page (sink : Sink) (client : S3Client) (path : Str)
    (data : ListObjectsV2Output)
    (hallowed : isAllowedPath path = true)
    (hlist : client.listObjectsV2 (delimitedListing sink (_createCombinedPath sink path))
      = Except.ok data)
    (hexact : exactMatch data (_createCombinedPath sink path) = none)
    (hfound : (data.Contents.isNone && data.CommonPrefixes.isNone) = false)
    (hdefault : (!endsWithSlash path
      && singlePrefixWithSlash data (_createCombinedPath sink path)) = false)
    (hmore : hasMore data = true) :
    getFullFileInfo sink client path
      = { requests := [Command.listObjectsV2
            (delimitedListing sink (_createCombinedPath sink path))]
          outcome := some (Outcome.rejected (JSError.referenceError "bucket".toList)) } := by
  unfold getFullFileInfo
  rw [getFullFileInfoBody_default sink client _ path data hallowed hlist hexact hfound
    hdefault]
  simp [Run.sent, Run.start, aggregate_of_pending, hmore]

/-! ## `getFullFileInfo`: directory aggregation -/

theorem pushContents_eq (sink : Sink) (path combined : Str) (contents : List S3Object)
    (children : List Node) :
    pushContents sink path combined children contents
      = children ++ (contents.filter (fun c => c.Key != combined)).map
          (fun c => _makeContentsNode sink c (some path)) := by
  unfold pushContents
  induction contents generalizing children with
  | nil => simp
  | cons c rest ih =>
    rw [List.foldl_cons, ih]
    by_cases h : c.Key = combined
    · simp [h]
    · simp [h]

theorem pushCommonPrefixes_eq (sink : Sink) (combined : Str) (prefixes : List CommonPrefix)
    (children : List Node) :
    pushCommonPrefixes sink combined children prefixes
      = children ++ prefixes.map (fun p => _makeCommonPrefixNode sink p combined) := by
  unfold pushCommonPrefixes
  induction prefixes generalizing children with
  | nil => simp
  | cons p rest ih =>
    rw [List.foldl_cons, ih]
    simp

/-- The children one page contributes: the entries other than the one keyed `combined`,
then the common prefixes, each in listing order. -/
theorem pushPage_eq (sink : Sink) (path combined : Str) (data : ListObjectsV2Output) :
    pushPage sink path combined [] data
      = ((data.Contents.getD []).filter (fun c => c.Key != combined)).map
            (fun c => _makeContentsNode sink c (some path))
          ++ (data.CommonPrefixes.getD []).map
            (fun p => _makeCommonPrefixNode sink p combined) := by
  unfold pushPage
  cases hc : data.Contents <;> cases hp : data.CommonPrefixes <;>
    simp [pushContents_eq, pushCommonPrefixes_eq]

/-- C3. When the listing of `getFullFileInfo(path)` is a single page that reaches the
directory aggregation (no exact file match, something listed, no recursive call), the
call resolves after that one request with a node that has `directory = true` and whose
`children` are the nodes of the object entries whose key differs from the combined
path, in listing order, followed by the nodes of the common prefixes, in listing order;
their number is the number of such entries plus the number of common prefixes. -/
theorem getFullFileInfo_directory_children (sink : Sink) (client : S3Client) (path : Str)
    (data : ListObjectsV2Output)
    (hallowed : isAllowedPath path = true)
    (hlist : client.listObjectsV2 (delimitedListing sink (_createCombinedPath sink path))
      = Except.ok data)
    (hexact : exactMatch data (_createCombinedPath sink path) = none)
    (hfound : data.Contents ≠ none ∨ data.CommonPrefixes ≠ none)
    (hdefault : endsWithSlash path = true
      ∨ singlePrefixWithSlash data (_createCombinedPath sink path) = false)
    (hsingle : hasMore data = false) :
    ∃ info : FileInfo,
      getFullFileInfo sink client path
        = { requests := [Command.listObjectsV2
              (delimitedListing sink (_createCombinedPath sink path))]
            outcome := some (Outcome.resolved info) } ∧
      info.directory = true ∧
      info.children
        = some (((data.Contents.getD []).filter
              (fun c => c.Key != _createCombinedPath sink path)).map
              (fun c => _makeContentsNode sink c (some path))
            ++ (data.CommonPrefixes.getD []).map
              (fun p => _makeCommonPrefixNode sink p (_createCombinedPath sink path))) ∧
      (info.children.getD []).length
        = ((data.Contents.getD []).filter
              (fun c => c.Key != _createCombinedPath sink path)).length
          + (data.CommonPrefixes.getD []).length := by
  have hfound2 : (data.Contents.isNone && data.CommonPrefixes.isNone) = false := by
    rcases hfound with h | h
    · cases hc : data.Contents with
      | none => exact absurd hc h
      | some cs => simp
    · cases hp : data.CommonPrefixes with
      | none => exact absurd hp h
      | some ps => simp
  have hdefault2 : (!endsWithSlash path
      && singlePrefixWithSlash data (_createCombinedPath sink path)) = false := by
    rcases hdefault with h | h
    · simp [h]
    · simp [h]
  refine ⟨directoryInfo sink path (_createCombinedPath sink path)
    (pushPage sink path (_createCombinedPath sink path) [] data), ?_, rfl, ?_, ?_⟩
  · unfold getFullFileInfo
    rw [getFullFileInfoBody_default sink client _ path data hallowed hlist hexact hfound2
      hdefault2]
    simp [aggregate, hsingle, Run.resolve, Run.sent, Run.start]
  · simp [directoryInfo, pushPage_eq]
  · simp [directoryInfo, pushPage_eq]

/-- Witness for C3: `getFullFileInfo('testdir/')` on three direct objects and one nested
directory resolves with four children. -/
theorem getFullFileInfo_directory_children_witness :
    ∃ info : FileInfo,
      getFullFileInfo exampleSink (storeClient testdirStore) "testdir/".toList
        = { requests := [Command.listObjectsV2
              (delimitedListing exampleSink "root/testdir/".toList)]
            outcome := some (Outcome.resolved info) } ∧
      info.directory = true ∧
      (info.children.getD []).length = 4 := by
  obtain ⟨info, hrun, hdir, _, hlen⟩ :=
    getFullFileInfo_directory_children exampleSink (storeClient testdirStore)
      "testdir/".toList
      (listStore testdirStore (delimitedListing exampleSink "root/testdir/".toList))
      (by decide) rfl (by decide) (by decide) (by decide) (by decide)
  refine ⟨info, hrun, hdir, ?_⟩
  rw [hlen]
  decide

/-! ## `getFullFileInfo`: the recursive call -/

/-- C4. For an allowed path that does not end with `/` and whose delimiter-scoped
listing at the combined path has no object entries and exactly the common prefix
`combined + '/'`, `getFullFileInfo(path)` settles with the same outcome (the same node
or the same error) as `getFullFileInfo(path + '/')`; the code that runs after the
recursive call finds the promise settled and leaves it as it is. -/
theorem getFullFileInfo_trailing_slash_irrelevant (sink : Sink) (client : S3Client)
    (path : Str) (data : ListObjectsV2Output)
    (hallowed : isAllowedPath path = true)
    (hslash : endsWithSlash path = false)
    (hlist : client.listObjectsV2 (delimitedListing sink (_createCombinedPath sink path))
      = Except.ok data)
    (hcontents : data.Contents.getD [] = [])
    (hcommon : data.CommonPrefixes
      = some [{ Prefix := _createCombinedPath sink path ++ ['/'] }]) :
    (getFullFileInfo sink client path).outcome
        = (getFullFileInfo sink client (path ++ ['/'])).outcome ∧
    (getFullFileInfo sink client (path ++ ['/'])).outcome ≠ none ∧
    ∀ (r : Run FileInfo) (info : FileInfo), r.outcome = some (Outcome.resolved info) →
      aggregate sink path (_createCombinedPath sink path) data r = r := by
  have hsub := getFullFileInfoBody_of_trailing_slash sink client
    (getFullFileInfoBody sink client fun _ => Run.start) (fun _ => Run.start)
    (path ++ ['/']) (endsWithSlash_append_slash path)
  have hexact : exactMatch data (_createCombinedPath sink path) = none := by
    unfold exactMatch
    cases hc : data.Contents with
    | none => rfl
    | some cs =>
      rw [hc] at hcontents
      simp only [Option.getD_some] at hcontents
      subst hcontents
      rfl
  have hsingle : singlePrefixWithSlash data (_createCombinedPath sink path) = true := by
    simp [singlePrefixWithSlash, hcommon]
  have hfound : (data.Contents.isNone && data.CommonPrefixes.isNone) = false := by
    simp [hcommon]
  refine ⟨?_, ?_, ?_⟩
  · have houter : (getFullFileInfo sink client path).outcome
        = (getFullFileInfoBody sink client (fun _ => Run.start) (path ++ ['/'])).outcome := by
      unfold getFullFileInfo
      generalize hS : getFullFileInfoBody sink client (fun _ => Run.start) (path ++ ['/']) = sub
      have hset := getFullFileInfoBody_settles sink client (fun _ => Run.start)
        (path ++ ['/']) (endsWithSlash_append_slash path)
      rw [hS] at hset
      rw [getFullFileInfoBody_recursive sink client _ path data hallowed hlist hexact hfound
        (by simp [hslash, hsingle]), hS]
      rcases hset with ⟨info, hinfo⟩ | ⟨e, he⟩
      · simp only [hinfo]
        rw [aggregate_of_settled sink path (_createCombinedPath sink path) data _
          (Outcome.resolved info) rfl]
        rfl
      · simp only [he]
    rw [houter]
    unfold getFullFileInfo
    rw [hsub]
  · unfold getFullFileInfo
    rw [hsub]
    rcases getFullFileInfoBody_settles sink client (fun _ => Run.start)
      (path ++ ['/']) (endsWithSlash_append_slash path) with ⟨info, hinfo⟩ | ⟨e, he⟩
    · simp [hinfo]
    · simp [he]
  · intro r info hr
    exact aggregate_of_settled sink path (_createCombinedPath sink path) data r _ hr

/-- Witness for C4: `testdir` has no marker object, and `getFullFileInfo('testdir')`
ends as `getFullFileInfo('testdir/')` does. -/
theorem getFullFileInfo_trailing_slash_irrelevant_witness :
    (getFullFileInfo exampleSink (storeClient testdirStore) "testdir".toList).outcome
      = (getFullFileInfo exampleSink (storeClient testdirStore) "testdir/".toList).outcome :=
  (getFullFileInfo_trailing_slash_irrelevant exampleSink (storeClient testdirStore)
    "testdir".toList
    (listStore testdirStore (delimitedListing exampleSink "root/testdir".toList))
    (by decide) (by decide) rfl (by decide) (by decide)).1

/-! ## `basename` -/

/-- The result of `basename` contains no separator. -/
theorem basename_no_slash (key : Str) : '/' ∉ basename key := by
  unfold basename
  intro h
  have h2 := List.mem_takeWhile_imp (List.mem_reverse.mp h)
  simp at h2

/-- The result of `basename` is the last non-empty segment of the key: the key is
`pre ++ basename key ++ trail`, where `trail` consists of separators, `pre` is empty or
ends with a separator, and `pre` is empty when the name is. -/
theorem basename_last_segment (key : Str) :
    ∃ pre trail : Str, key = pre ++ basename key ++ trail ∧ (∀ c ∈ trail, c = '/') ∧
      (pre = [] ∨ pre.getLast? = some '/') ∧ (basename key = [] → pre = []) := by
  refine ⟨((key.reverse.dropWhile (· == '/')).dropWhile (· != '/')).reverse,
    (key.reverse.takeWhile (· == '/')).reverse, ?_, ?_, ?_, ?_⟩
  · unfold basename
    rw [← List.reverse_append, List.takeWhile_append_dropWhile, ← List.reverse_append,
      List.takeWhile_append_dropWhile, List.reverse_reverse]
  · intro c hc
    have h2 := List.mem_takeWhile_imp (List.mem_reverse.mp hc)
    simpa using h2
  · have hh := List.head?_dropWhile_not (· != '/') (key.reverse.dropWhile (· == '/'))
    cases hd : (key.reverse.dropWhile (· == '/')).dropWhile (· != '/') with
    | nil => exact Or.inl rfl
    | cons x xs =>
      right
      rw [hd] at hh
      simp only [List.head?_cons, bne_eq_false_iff_eq] at hh
      rw [List.getLast?_reverse, List.head?_cons, hh]
  · intro hb
    unfold basename at hb
    rw [List.reverse_eq_nil_iff] at hb
    have hh := List.head?_dropWhile_not (· == '/') key.reverse
    cases hd : key.reverse.dropWhile (· == '/') with
    | nil => simp
    | cons x xs =>
      rw [hd] at hh hb
      simp only [List.head?_cons, beq_eq_false_iff_ne] at hh
      simp [List.takeWhile_cons, hh] at hb

theorem mem_of_endsWithSlash (s : Str) (h : endsWithSlash s = true) : '/' ∈ s := by
  unfold endsWithSlash at h
  exact List.mem_of_getLast?_eq_some (by simpa using h)

theorem endsWithSlash_basename (key : Str) : endsWithSlash (basename key) = false := by
  cases h : endsWithSlash (basename key) with
  | false => rfl
  | true => exact absurd (mem_of_endsWithSlash _ h) (basename_no_slash key)

/-! ## `getFullFileInfo`: files -/

/-- C5 (code defect). With the objects `root/data1.txt` (4 bytes) and
`root/data1.txt.bak` in the bucket, the listing for `data1.txt` has two entries, the
exact-match test fails on `length == 1`, and `getFullFileInfo('data1.txt')` resolves
with a directory node without size that has the other object as its child, where the
claim expects `directory = false` and `stat.size = 4`. -/
theorem getFullFileInfo_file_with_sibling :
    listStore siblingStore (delimitedListing exampleSink "root/data1.txt".toList)
      = { Contents := some siblingStore, CommonPrefixes := none,
          NextContinuationToken := none, IsTruncated := false } ∧
    getFullFileInfo exampleSink (storeClient siblingStore) "data1.txt".toList
      = { requests := [Command.listObjectsV2
            (delimitedListing exampleSink "root/data1.txt".toList)]
          outcome := some (Outcome.resolved
            (directoryInfo exampleSink "data1.txt".toList "root/data1.txt".toList
              [_makeContentsNode exampleSink
                { Key := "root/data1.txt.bak".toList, Size := 7, LastModified := 0 }
                (some "data1.txt".toList)])) } ∧
    (directoryInfo exampleSink "data1.txt".toList "root/data1.txt".toList
        [_makeContentsNode exampleSink
          { Key := "root/data1.txt.bak".toList, Size := 7, LastModified := 0 }
          (some "data1.txt".toList)]).directory = true ∧
    (directoryInfo exampleSink "data1.txt".toList "root/data1.txt".toList
        [_makeContentsNode exampleSink
          { Key := "root/data1.txt.bak".toList, Size := 7, LastModified := 0 }
          (some "data1.txt".toList)]).stat.size = none := by
  decide

/-- C6. When the delimiter-scoped listing at the combined path has exactly one object
entry and its key is the combined path, `getFullFileInfo` resolves after that single
request with the node `_makeContentsNode` builds from the entry: `stat.size` is the
entry's size, `name` is the last segment of the key, and `directory` is true exactly
when the key ends with a separator and the size is 0. -/
theorem getFullFileInfo_exact_match (sink : Sink) (client : S3Client) (path : Str)
    (data : ListObjectsV2Output) (content : S3Object)
    (hallowed : isAllowedPath path = true)
    (hlist : client.listObjectsV2 (delimitedListing sink (_createCombinedPath sink path))
      = Except.ok data)
    (hcontents : data.Contents = some [content])
    (hkey : content.Key = _createCombinedPath sink path) :
    ∃ info : FileInfo,
      getFullFileInfo sink client path
        = { requests := [Command.listObjectsV2
              (delimitedListing sink (_createCombinedPath sink path))]
            outcome := some (Outcome.resolved info) } ∧
      info = FileInfo.ofNode (_makeContentsNode sink content (some (dirname path))) ∧
      info.stat.size = some content.Size ∧
      info.name = basename content.Key ∧
      '/' ∉ info.name ∧
      (∃ pre trail : Str, content.Key = pre ++ info.name ++ trail ∧ (∀ c ∈ trail, c = '/') ∧
        (pre = [] ∨ pre.getLast? = some '/') ∧ (info.name = [] → pre = [])) ∧
      (info.directory = true ↔ endsWithSlash content.Key = true ∧ content.Size = 0) := by
  have hexact : exactMatch data (_createCombinedPath sink path) = some content := by
    simp [exactMatch, hcontents, hkey]
  refine ⟨FileInfo.ofNode (_makeContentsNode sink content (some (dirname path))), ?_, rfl,
    rfl, rfl, basename_no_slash content.Key, basename_last_segment content.Key, ?_⟩
  · unfold getFullFileInfo
    exact getFullFileInfoBody_exact sink client _ path data content hallowed hlist hexact
  · simp [FileInfo.ofNode, _makeContentsNode]

/-- Witness for C6: the test suite's `data1.txt`, alone in the bucket. -/
theorem getFullFileInfo_exact_match_witness :
    ∃ info : FileInfo,
      getFullFileInfo exampleSink (storeClient singleStore) "data1.txt".toList
        = { requests := [Command.listObjectsV2
              (delimitedListing exampleSink "root/data1.txt".toList)]
            outcome := some (Outcome.resolved info) } ∧
      info.stat.size = some 4 ∧ info.name = "data1.txt".toList ∧ info.directory = false := by
  obtain ⟨info, hrun, hinfo, _⟩ :=
    getFullFileInfo_exact_match exampleSink (storeClient singleStore) "data1.txt".toList
      (listStore singleStore (delimitedListing exampleSink "root/data1.txt".toList))
      { Key := "root/data1.txt".toList, Size := 4, LastModified := 0 }
      (by decide) rfl (by decide) (by decide)
  refine ⟨info, hrun, ?_⟩
  subst hinfo
  decide

/-! ## `getFullFileInfo`: directories -/

/-- C7 (code defect). After `mkdir('testdir')` the bucket holds the zero-byte marker
`root/testdir/` only. The listing for `testdir/` is that single entry, so the exact-match
branch answers: `getFullFileInfo('testdir/')`, and through the recursive call
`getFullFileInfo('testdir')`, resolve with the node of `_makeContentsNode`, which has
`directory = true` and name `testdir` but no `children` property, where the claim
expects `children = []`. -/
theorem getFullFileInfo_marker_only_directory :
    (mkdir exampleSink (storeClient []) "testdir".toList).requests
      = [Command.putObject "b".toList "root/testdir/".toList []] ∧
    listStore markerStore (delimitedListing exampleSink "root/testdir/".toList)
      = { Contents := some markerStore, CommonPrefixes := none,
          NextContinuationToken := none, IsTruncated := false } ∧
    listStore markerStore (delimitedListing exampleSink "root/testdir".toList)
      = { Contents := none, CommonPrefixes := some [{ Prefix := "root/testdir/".toList }],
          NextContinuationToken := none, IsTruncated := false } ∧
    (getFullFileInfo exampleSink (storeClient markerStore) "testdir/".toList).outcome
      = some (Outcome.resolved (FileInfo.ofNode (_makeContentsNode exampleSink
          { Key := "root/testdir/".toList, Size := 0, LastModified := 0 }
          (some ".".toList)))) ∧
    (getFullFileInfo exampleSink (storeClient markerStore) "testdir".toList).outcome
      = some (Outcome.resolved (FileInfo.ofNode (_makeContentsNode exampleSink
          { Key := "root/testdir/".toList, Size := 0, LastModified := 0 }
          (some ".".toList)))) ∧
    (FileInfo.ofNode (_makeContentsNode exampleSink
        { Key := "root/testdir/".toList, Size := 0, LastModified := 0 }
        (some ".".toList))).directory = true ∧
    (FileInfo.ofNode (_makeContentsNode exampleSink
        { Key := "root/testdir/".toList, Size := 0, LastModified := 0 }
        (some ".".toList))).name = "testdir".toList ∧
    (FileInfo.ofNode (_makeContentsNode exampleSink
        { Key := "root/testdir/".toList, Size := 0, LastModified := 0 }
        (some ".".toList))).children = none := by
  decide

/-- C8 (code defect). In `getFullFileInfo('testdir/')` on a sink with prefix `root/`, the
children built from object entries get `path` as their parent and have a `relPath`
relative to the root (`testdir/data1.txt`), but the child built from the common prefix
`root/testdir/sub/` gets `combined` as its parent: its `relPath` is `root/testdir/sub`,
not the prefix-stripped `testdir/sub` the claim expects. -/
theorem getFullFileInfo_common_prefix_relPath :
    listStore testdirStore (delimitedListing exampleSink "root/testdir/".toList)
      = { Contents := some (testdirStore.take 3),
          CommonPrefixes := some [{ Prefix := "root/testdir/sub/".toList }],
          NextContinuationToken := none, IsTruncated := false } ∧
    (getFullFileInfo exampleSink (storeClient testdirStore) "testdir/".toList).outcome
      = some (Outcome.resolved
          (directoryInfo exampleSink "testdir/".toList "root/testdir/".toList
            [_makeContentsNode exampleSink
               { Key := "root/testdir/data1.txt".toList, Size := 4, LastModified := 0 }
               (some "testdir/".toList),
             _makeContentsNode exampleSink
               { Key := "root/testdir/data2.txt".toList, Size := 4, LastModified := 0 }
               (some "testdir/".toList),
             _makeContentsNode exampleSink
               { Key := "root/testdir/data3.txt".toList, Size := 4, LastModified := 0 }
               (some "testdir/".toList),
             _makeCommonPrefixNode exampleSink { Prefix := "root/testdir/sub/".toList }
               "root/testdir/".toList])) ∧
    (_makeContentsNode exampleSink
        { Key := "root/testdir/data1.txt".toList, Size := 4, LastModified := 0 }
        (some "testdir/".toList)).relPath = "testdir/data1.txt".toList ∧
    (_makeCommonPrefixNode exampleSink { Prefix := "root/testdir/sub/".toList }
        "root/testdir/".toList).relPath = "root/testdir/sub".toList ∧
    _removeSlashes ("root/testdir/sub/".toList.drop exampleSink.pfx.length)
      = "testdir/sub".toList := by
  decide

/-! ## Separators at the ends of `name` and `relPath` -/

theorem endsWithSlash_dropTrailingSlashes (s : Str) :
    endsWithSlash (dropTrailingSlashes s) = false := by
  induction s with
  | nil => rfl
  | cons c rest ih =>
    unfold dropTrailingSlashes
    cases hk : dropTrailingSlashes rest with
    | nil =>
      by_cases hc : c = '/'
      · simp [hc, endsWithSlash]
      · simp [hc, endsWithSlash]
    | cons x xs =>
      rw [hk] at ih
      simpa [endsWithSlash] using ih

theorem startsWithSlash_dropTrailingSlashes (s : Str) (h : startsWithSlash s = false) :
    startsWithSlash (dropTrailingSlashes s) = false := by
  cases s with
  | nil => rfl
  | cons c rest =>
    have hc : c ≠ '/' := by simpa [startsWithSlash] using h
    unfold dropTrailingSlashes
    cases hk : dropTrailingSlashes rest with
    | nil => simp [hc, startsWithSlash]
    | cons x xs => simp [hc, startsWithSlash]

theorem startsWithSlash_dropLeadingSlashes (s : Str) :
    startsWithSlash (dropLeadingSlashes s) = false := by
  induction s with
  | nil => rfl
  | cons c rest ih =>
    unfold dropLeadingSlashes
    by_cases hc : c = '/'
    · simpa [hc] using ih
    · simp [hc, startsWithSlash]

theorem endsWithSlash_removeSlashes (path : Str) :
    endsWithSlash (_removeSlashes path) = false :=
  endsWithSlash_dropTrailingSlashes _

theorem startsWithSlash_removeSlashes (path : Str) :
    startsWithSlash (_removeSlashes path) = false :=
  startsWithSlash_dropTrailingSlashes _ (startsWithSlash_dropLeadingSlashes path)

theorem trimmed_makeContentsNode (sink : Sink) (content : S3Object) (parentPath : Option Str) :
    (_makeContentsNode sink content parentPath).Trimmed :=
  ⟨endsWithSlash_basename _, endsWithSlash_removeSlashes _, startsWithSlash_removeSlashes _⟩

theorem trimmed_makeCommonPrefixNode (sink : Sink) (p : CommonPrefix) (parentPath : Str) :
    (_makeCommonPrefixNode sink p parentPath).Trimmed :=
  ⟨endsWithSlash_basename _, endsWithSlash_removeSlashes _, startsWithSlash_removeSlashes _⟩

theorem trimmed_pushPage (sink : Sink) (path combined : Str) (data : ListObjectsV2Output) :
    ∀ child ∈ pushPage sink path combined [] data, child.Trimmed := by
  intro child hchild
  rw [pushPage_eq, List.mem_append] at hchild
  rcases hchild with h | h
  · obtain ⟨c, _, rfl⟩ := List.mem_map.mp h
    exact trimmed_makeContentsNode sink c (some path)
  · obtain ⟨p, _, rfl⟩ := List.mem_map.mp h
    exact trimmed_makeCommonPrefixNode sink p combined

/-- Every object `getFullFileInfoBody` resolves with is trimmed, provided the objects the
recursive call resolves with are. -/
theorem trimmed_getFullFileInfoBody (sink : Sink) (client : S3Client)
    (self : Str → Run FileInfo)
    (hself : ∀ p info, (self p).outcome = some (Outcome.resolved info) → info.Trimmed)
    (path : Str) (info : FileInfo)
    (h : (getFullFileInfoBody sink client self path).outcome = some (Outcome.resolved info)) :
    info.Trimmed := by
  by_cases ha : isAllowedPath path = true
  · cases hl : client.listObjectsV2 (delimitedListing sink (_createCombinedPath sink path)) with
    | error e =>
      rw [getFullFileInfoBody_list_error sink client self path e ha hl] at h
      simp at h
    | ok data =>
      cases hx : exactMatch data (_createCombinedPath sink path) with
      | some content =>
        rw [getFullFileInfoBody_exact sink client self path data content ha hl hx] at h
        simp only [Option.some.injEq, Outcome.resolved.injEq] at h
        subst h
        exact ⟨trimmed_makeContentsNode sink content _, by simp [FileInfo.ofNode]⟩
      | none =>
        have hdir : (directoryInfo sink path (_createCombinedPath sink path)
            (pushPage sink path (_createCombinedPath sink path) [] data)).Trimmed :=
          ⟨⟨endsWithSlash_basename _, endsWithSlash_removeSlashes _,
            startsWithSlash_removeSlashes _⟩,
            by simpa [directoryInfo] using trimmed_pushPage sink path _ data⟩
        by_cases hn : (data.Contents.isNone && data.CommonPrefixes.isNone) = true
        · rw [getFullFileInfoBody_not_found sink client self path data ha hl hx hn] at h
          simp at h
        · by_cases hr : (!endsWithSlash path
              && singlePrefixWithSlash data (_createCombinedPath sink path)) = true
          · rw [getFullFileInfoBody_recursive sink client self path data ha hl hx
              (Bool.eq_false_iff.mpr hn) hr] at h
            cases hs : (self (path ++ ['/'])).outcome with
            | none =>
              rw [hs] at h
              simp at h
            | some out =>
              cases out with
              | threw e =>
                rw [hs] at h
                simp at h
              | rejected e =>
                rw [hs] at h
                simp at h
              | resolved sub =>
                rw [hs] at h
                simp only at h
                rw [aggregate_of_settled sink path (_createCombinedPath sink path) data _
                  (Outcome.resolved sub) rfl] at h
                simp only [Run.resolve, Option.some.injEq, Outcome.resolved.injEq] at h
                subst h
                exact hself _ _ hs
          · rw [getFullFileInfoBody_default sink client self path data ha hl hx
              (Bool.eq_false_iff.mpr hn) (Bool.eq_false_iff.mpr hr)] at h
            simp only [Run.sent, Run.start, List.nil_append, aggregate_of_pending] at h
            by_cases hm : hasMore data = true
            · simp [hm] at h
            · simp only [hm, Bool.false_eq_true, if_false, Option.some.injEq,
                Outcome.resolved.injEq] at h
              subst h
              exact hdir
  · rw [getFullFileInfoBody_not_allowed sink client self path (by simpa using ha)] at h
    simp at h

/-- C9. Whatever the input path, with or without trailing separators, a node
`getFullFileInfo` resolves with, and every node among its `children`, has a `name` that
does not end with a separator and a `relPath` that neither ends nor begins with one. -/
theorem getFullFileInfo_trimmed (sink : Sink) (client : S3Client) (path : Str)
    (info : FileInfo)
    (h : (getFullFileInfo sink client path).outcome = some (Outcome.resolved info)) :
    endsWithSlash info.name = false ∧ endsWithSlash info.relPath = false ∧
    startsWithSlash info.relPath = false ∧
    ∀ child ∈ info.children.getD [],
      endsWithSlash child.name = false ∧ endsWithSlash child.relPath = false ∧
      startsWithSlash child.relPath = false := by
  have hinner : ∀ p sub,
      (getFullFileInfoBody sink client (fun _ => Run.start) p).outcome
        = some (Outcome.resolved sub) → sub.Trimmed := by
    intro p sub hp
    exact trimmed_getFullFileInfoBody sink client (fun _ => Run.start)
      (fun _ _ hq => by simp [Run.start] at hq) p sub hp
  have hinfo := trimmed_getFullFileInfoBody sink client _ hinner path info h
  exact ⟨hinfo.1.1, hinfo.1.2.1, hinfo.1.2.2, hinfo.2⟩

/-- Witness for C9: the directory of the test suite, asked for with a trailing
separator. -/
theorem getFullFileInfo_trimmed_witness :
    endsWithSlash (directoryInfo exampleSink "testdir/".toList "root/testdir/".toList
      (pushPage exampleSink "testdir/".toList "root/testdir/".toList []
        (listStore testdirStore (delimitedListing exampleSink "root/testdir/".toList)))).name
      = false ∧
    endsWithSlash (directoryInfo exampleSink "testdir/".toList "root/testdir/".toList
      (pushPage exampleSink "testdir/".toList "root/testdir/".toList []
        (listStore testdirStore (delimitedListing exampleSink "root/testdir/".toList)))).relPath
      = false ∧
    startsWithSlash (directoryInfo exampleSink "testdir/".toList "root/testdir/".toList
      (pushPage exampleSink "testdir/".toList "root/testdir/".toList []
        (listStore testdirStore (delimitedListing exampleSink "root/testdir/".toList)))).relPath
      = false ∧
    ∀ child ∈ (directoryInfo exampleSink "testdir/".toList "root/testdir/".toList
      (pushPage exampleSink "testdir/".toList "root/testdir/".toList []
        (listStore testdirStore
          (delimitedListing exampleSink "root/testdir/".toList)))).children.getD [],
      endsWithSlash child.name = false ∧ endsWithSlash child.relPath = false ∧
      startsWithSlash child.relPath = false :=
  getFullFileInfo_trimmed exampleSink (storeClient testdirStore) "testdir/".toList _
    (by decide)

/-! ## `getFullFileInfo`: not found -/

/-- C10. When the reply to the listing at the combined path carries neither `Contents`
nor `CommonPrefixes`, `getFullFileInfo` rejects with `Path not found.` and has sent that
one request only. -/
theorem getFullFileInfo_not_found (sink : Sink) (client : S3Client) (path : Str)
    (data : ListObjectsV2Output)
    (hallowed : isAllowedPath path = true)
    (hlist : client.listObjectsV2 (delimitedListing sink (_createCombinedPath sink path))
      = Except.ok data)
    (hcontents : data.Contents = none)
    (hcommons : data.CommonPrefixes = none) :
    getFullFileInfo sink client path
      = { requests := [Command.listObjectsV2
            (delimitedListing sink (_createCombinedPath sink path))]
          outcome := some (Outcome.rejected (JSError.error "Path not found.".toList)) } := by
  unfold getFullFileInfo
  exact getFullFileInfoBody_not_found sink client _ path data hallowed hlist
    (by simp [exactMatch, hcontents]) (by simp [hcontents, hcommons])

/-- Witness for C10: `data3.txt` on a bucket that does not hold it (any more). -/
theorem getFullFileInfo_not_found_witness :
    getFullFileInfo exampleSink (storeClient singleStore) "data3.txt".toList
      = { requests := [Command.listObjectsV2
            (delimitedListing exampleSink "root/data3.txt".toList)]
          outcome := some (Outcome.rejected (JSError.error "Path not found.".toList)) } :=
  getFullFileInfo_not_found exampleSink (storeClient singleStore) "data3.txt".toList
    (listStore singleStore (delimitedListing exampleSink "root/data3.txt".toList))
    (by decide) rfl (by decide) (by decide)

/-! ## `_removeSlashes` -/

theorem dropLeadingSlashes_of_not_startsWithSlash (s : Str) (h : startsWithSlash s = false) :
    dropLeadingSlashes s = s := by
  cases s with
  | nil => rfl
  | cons c rest =>
    have hc : c ≠ '/' := by simpa [startsWithSlash] using h
    simp [dropLeadingSlashes, hc]

/-- The first loop of `_removeSlashes` on a string with a leading separator: one pass
removes it and the loop goes on. -/
theorem dropLeadingSlashes_slash_cons (s : Str) :
    dropLeadingSlashes ('/' :: s) = dropLeadingSlashes s := by
  simp [dropLeadingSlashes]

theorem dropTrailingSlashes_of_not_endsWithSlash (s : Str) (h : endsWithSlash s = false) :
    dropTrailingSlashes s = s := by
  induction s with
  | nil => rfl
  | cons c rest ih =>
    unfold dropTrailingSlashes
    cases rest with
    | nil =>
      have hc : c ≠ '/' := by simpa [endsWithSlash] using h
      simp [dropTrailingSlashes, hc]
    | cons x xs =>
      have hrest : endsWithSlash (x :: xs) = false := by
        simpa [endsWithSlash] using h
      rw [ih hrest]

/-- The second loop of `_removeSlashes` on a string with a trailing separator: one pass
removes it and the loop goes on. -/
theorem dropTrailingSlashes_append_slash (s : Str) :
    dropTrailingSlashes (s ++ ['/']) = dropTrailingSlashes s := by
  induction s with
  | nil => simp [dropTrailingSlashes]
  | cons c rest ih =>
    rw [List.cons_append]
    unfold dropTrailingSlashes
    rw [ih]

/-- C18. For every string `s`, `_removeSlashes(s)` neither begins nor ends with a
separator, and applying `_removeSlashes` to it again returns it unchanged. -/
theorem removeSlashes_trimmed_idempotent (s : Str) :
    startsWithSlash (_removeSlashes s) = false ∧
    endsWithSlash (_removeSlashes s) = false ∧
    _removeSlashes (_removeSlashes s) = _removeSlashes s := by
  refine ⟨startsWithSlash_removeSlashes s, endsWithSlash_removeSlashes s, ?_⟩
  show dropTrailingSlashes (dropLeadingSlashes (_removeSlashes s)) = _removeSlashes s
  rw [dropLeadingSlashes_of_not_startsWithSlash _ (startsWithSlash_removeSlashes s),
    dropTrailingSlashes_of_not_endsWithSlash _ (endsWithSlash_removeSlashes s)]

/-! ## `write` -/

/-- Whatever `offset` and `length` say, a `write` that gets past the two guards uploads
the binary form of the whole `data` in a single put. -/
theorem write_uploads_whole_data (sink : Sink) (client : S3Client) (path : Str) (data : Data)
    (options : Option WriteOptions)
    (hallowed : isAllowedPath path = true)
    (hposition : truthy (options.getD
      { offset := none, length := none, position := none }).position = false) :
    (write sink client path data options).requests
      = [Command.putObject sink.bucket (_createCombinedPath sink path)
          (_convertToBinary data).1] := by
  unfold write
  simp only [hallowed, hposition, bufferFrom]
  cases h : client.putObject sink.bucket (_createCombinedPath sink path)
      (_convertToBinary data).1
    <;> simp [h, Run.resolve, Run.reject, Run.sent, Run.start]

/-- C16 (code defect). The guard of `write` is `if (options.position)`, and `0` is falsy:
`write('data2.txt', 'a', { position: 0 })` is not refused, it puts the one byte of `'a'`
as the whole object and resolves, where the claim expects the unsupported-operation
error and no put. With `position: 10` the call is refused, as in the test suite. -/
theorem write_position_zero_not_refused :
    write exampleSink (storeClient []) "data2.txt".toList (Data.string "a".toList)
        (some positionZero)
      = { requests := [Command.putObject "b".toList "root/data2.txt".toList [97]]
          outcome := some (Outcome.resolved ()) } ∧
    write exampleSink (storeClient []) "data2.txt".toList (Data.string "a".toList)
        (some positionTen)
      = { requests := []
          outcome := some (Outcome.rejected (JSError.error "not yet supported".toList)) } := by
  decide

/-- C17 (code defect). `write('f.bin', <1 2 3 4 5>, { offset: 1, length: 2 })` hands the
buffer to `Buffer.from(buffer, 1, 2)`, which copies a `Buffer` whole: the put carries all
five bytes, where the claim expects the two bytes `2 3` at offset 1. -/
theorem write_offset_length_ignored :
    write exampleSink (storeClient []) "f.bin".toList (Data.buffer [1, 2, 3, 4, 5])
        (some offsetOneLengthTwo)
      = { requests := [Command.putObject "b".toList "root/f.bin".toList [1, 2, 3, 4, 5]]
          outcome := some (Outcome.resolved ()) } ∧
    (([1, 2, 3, 4, 5] : List Nat).drop 1).take 2 = [2, 3] := by
  decide

/-! ## `find`: pagination and completion -/

/-- C14 (code defect). On a truncated first page that carries a continuation token,
`find` emits the nodes of that page and then builds the next command from the unbound
identifier `bucket`: no follow-up listing is sent, the `ReferenceError` is emitted as
`error`, and `findPaths` rejects with it, where the claim expects the nodes of every
page followed by `done`. -/
theorem find_truncated_emits_error :
    hasMore firstPage = true ∧
    find exampleSink twoPageClient { FindOptions.default with startingPath := "dir/".toList }
      = { requests := [Command.listObjectsV2
            { Bucket := "b".toList, Prefix := "root/dir/".toList, Delimiter := none,
              ContinuationToken := none }]
          events := [Event.data (_makeContentsNode exampleSink
              { Key := "root/dir/a.txt".toList, Size := 1, LastModified := 0 } none),
            Event.error (JSError.referenceError "bucket".toList)] } ∧
    (findPaths exampleSink twoPageClient
        { FindOptions.default with startingPath := "dir/".toList }).outcome
      = some (Outcome.rejected (JSError.referenceError "bucket".toList)) := by
  decide

/-- C15 (code defect). `run` calls `match` without `await`. With the asynchronous path
test of the test suite, `match` is suspended on the promise when `run` reaches
`emit('done')`: `done` is the first event, the `data` event of the passing node
`data2.txt` follows it, and `items` is still empty when `findPaths` resolves with it,
where the claim expects every `data` event before `done`. -/
theorem find_done_before_async_data :
    find exampleSink (storeClient twoFileStore) asyncPathOptions
      = { requests := [Command.listObjectsV2
            { Bucket := "b".toList, Prefix := "root/".toList, Delimiter := none,
              ContinuationToken := none }]
          events := [Event.done,
            Event.data (_makeContentsNode exampleSink
              { Key := "root/data2.txt".toList, Size := 4, LastModified := 0 } none)] } ∧
    findPaths exampleSink (storeClient twoFileStore) asyncPathOptions
      = { requests := [Command.listObjectsV2
            { Bucket := "b".toList, Prefix := "root/".toList, Delimiter := none,
              ContinuationToken := none }]
          outcome := some (Outcome.resolved [])
          items := ["data2.txt".toList] } := by
  decide

/-! ## `find`: the filter -/

/-- The search loop of a pattern that is not sticky finds a match exactly when the
matcher succeeds at one of the indices it tries. -/
theorem search_isSome (r : RegExp) (s : Str) (hsticky : r.sticky = false) (fuel : Nat) :
    ∀ i, (r.search s fuel i).isSome
      = (List.range' i fuel).any (fun j => (r.matcher s j).isSome) := by
  induction fuel with
  | zero =>
    intro i
    simp [RegExp.search]
  | succ fuel ih =>
    intro i
    rw [RegExp.search, List.range'_succ, List.any_cons]
    cases hm : r.matcher s i with
    | some e => simp
    | none => simp [hsticky, ih (i + 1)]

/-- `test` on a `RegExp` without the `g` and `y` flags: whether the pattern matches the
string, with no `lastIndex` written. -/
theorem test_of_no_flags (r : RegExp) (heap : Heap) (s : Str)
    (hglobal : r.global = false) (hsticky : r.sticky = false) :
    r.test heap s = (r.matches s, heap) := by
  have hsearch := search_isSome r s hsticky (s.length + 1) 0
  unfold RegExp.test RegExp.exec RegExp.matches
  simp only [hglobal, hsticky, Bool.or_self, Bool.false_eq_true, if_false,
    Nat.not_lt_zero, Nat.sub_zero, List.range_eq_range']
  rw [← hsearch]
  cases r.search s (s.length + 1) 0 <;> rfl

/-- The test of a stateless pattern returns, on the spot, whether the value satisfies the
pattern, and leaves every `lastIndex` as it was. -/
theorem createTest_of_stateless (pattern : Option Pattern) (h : Stateless pattern) :
    (_createTest pattern = none ∧ pattern = none) ∨
    ∃ test, _createTest pattern = some test ∧
      ∀ heap value, test heap value = (TestResult.value (satisfies pattern value), heap) := by
  cases pattern with
  | none => exact Or.inl ⟨rfl, rfl⟩
  | some p =>
    right
    cases p with
    | regExp r =>
      refine ⟨_, rfl, ?_⟩
      intro heap value
      simp only [test_of_no_flags r heap value h.1 h.2, satisfies]
    | function f =>
      refine ⟨_, rfl, ?_⟩
      intro heap value
      obtain ⟨b, hb⟩ := h value
      simp only [satisfies, hb]

theorem matchPath_of_stateless (pattern : Option Pattern) (h : Stateless pattern)
    (heap : Heap) (path : Str) (info : Node) :
    matchPath (_createTest pattern) heap path info
      = (if satisfies pattern path then Step.emitted info else Step.skipped, heap) := by
  rcases createTest_of_stateless pattern h with ⟨hnone, hp⟩ | ⟨test, hsome, htest⟩
  · subst hp
    simp [matchPath, _createTest, satisfies]
  · rw [hsome]
    simp only [matchPath, htest]

/-- With stateless patterns, `match` emits within the call exactly when the node passes,
does nothing otherwise, and writes no `lastIndex`. -/
theorem findMatch_of_stateless (options : FindOptions) (heap : Heap) (node : Node)
    (hname : Stateless options.namePattern) (hpath : Stateless options.pathPattern) :
    findMatch options heap node.name node.relPath node
      = (if passes options node then Step.emitted node else Step.skipped, heap) := by
  unfold findMatch passes
  rcases createTest_of_stateless options.namePattern hname with
    ⟨hnone, hp⟩ | ⟨test, hsome, htest⟩
  · have hn : satisfies options.namePattern node.name = true := by
      rw [hp]
      rfl
    rw [hnone, hn]
    simp only [matchPath_of_stateless _ hpath]
    generalize satisfies options.pathPattern node.relPath = sp
    generalize node.directory = d
    generalize options.directory = od
    generalize options.file = f
    cases d <;> cases od <;> cases f <;> cases sp <;> rfl
  · rw [hsome]
    simp only [htest, matchPath_of_stateless _ hpath]
    generalize satisfies options.pathPattern node.relPath = sp
    generalize satisfies options.namePattern node.name = sn
    generalize node.directory = d
    generalize options.directory = od
    generalize options.file = f
    cases d <;> cases od <;> cases f <;> cases sn <;> cases sp <;> rfl

/-- With stateless patterns the loop of `run` emits the passing nodes, in listing order,
and leaves no call of `match` suspended. -/
theorem matchContents_of_stateless (sink : Sink) (options : FindOptions)
    (contents : List S3Object)
    (hname : Stateless options.namePattern) (hpath : Stateless options.pathPattern) :
    matchContents sink options contents
      = { heap := []
          events := (((contents.map (fun child => _makeContentsNode sink child none)).filter
            (passes options)).map Event.data)
          suspended := [] } := by
  have hfold : ∀ (cs : List S3Object) (p : Phase),
      cs.foldl
        (fun p child =>
          let node := _makeContentsNode sink child none
          p.record (findMatch options p.heap node.name node.relPath node)) p
        = { p with events := p.events
              ++ (((cs.map (fun child => _makeContentsNode sink child none)).filter
                (passes options)).map Event.data) } := by
    intro cs
    induction cs with
    | nil =>
      intro p
      simp
    | cons c rest ih =>
      intro p
      rw [List.foldl_cons, ih]
      simp only [findMatch_of_stateless options _ _ hname hpath, List.map_cons,
        List.filter_cons]
      by_cases hp : passes options (_makeContentsNode sink c none) = true
      · simp [hp, Phase.record]
      · simp [hp, Phase.record]
  unfold matchContents
  rw [hfold]
  simp

/-- The listeners of `findPaths` over a run of `data` events. -/
theorem foldl_onEvent_data (nodes : List Node) (r : FindPathsRun) :
    (nodes.map Event.data).foldl onEvent r
      = { r with items := r.items ++ nodes.map (fun n => n.relPath) } := by
  induction nodes generalizing r with
  | nil => simp
  | cons n rest ih =>
    simp only [List.map_cons, List.foldl_cons]
    rw [ih]
    simp [onEvent]

/-- C13, as amended. When the un-delimited listing is a single page and the name and
path patterns are stateless (absent, a string or a `RegExp` without the `g` and `y`
flags, or a synchronous function), `find` sends that one listing and emits, in listing
order, the nodes of exactly those object entries that pass (type selected by the flags,
name satisfying the name pattern, `relPath` satisfying the path pattern), and then
`done`; `findPaths` resolves to the `relPath`s of these nodes, in the same order. -/
theorem find_emits_passing_nodes (sink : Sink) (client : S3Client) (options : FindOptions)
    (data : ListObjectsV2Output)
    (hlist : client.listObjectsV2
      (undelimitedListing sink (_createCombinedPath sink options.startingPath))
      = Except.ok data)
    (hsingle : hasMore data = false)
    (hname : Stateless options.namePattern) (hpath : Stateless options.pathPattern) :
    find sink client options
      = { requests := [Command.listObjectsV2
            (undelimitedListing sink (_createCombinedPath sink options.startingPath))]
          events :=
            ((((data.Contents.getD []).map (fun child => _makeContentsNode sink child none)).filter
              (passes options)).map Event.data) ++ [Event.done] } ∧
    findPaths sink client options
      = { requests := [Command.listObjectsV2
            (undelimitedListing sink (_createCombinedPath sink options.startingPath))]
          outcome := some (Outcome.resolved
            ((((data.Contents.getD []).map (fun child => _makeContentsNode sink child none)).filter
              (passes options)).map (fun n => n.relPath)))
          items :=
            (((data.Contents.getD []).map (fun child => _makeContentsNode sink child none)).filter
              (passes options)).map (fun n => n.relPath) } := by
  have hfind : find sink client options
      = { requests := [Command.listObjectsV2
            (undelimitedListing sink (_createCombinedPath sink options.startingPath))]
          events :=
            ((((data.Contents.getD []).map (fun child => _makeContentsNode sink child none)).filter
              (passes options)).map Event.data) ++ [Event.done] } := by
    unfold find
    unfold undelimitedListing at hlist
    simp only [hlist]
    cases hc : data.Contents with
    | none => simp [undelimitedListing]
    | some contents =>
      simp [hsingle, matchContents_of_stateless sink options contents hname hpath,
        resumeAll, undelimitedListing]
  refine ⟨hfind, ?_⟩
  unfold findPaths
  rw [hfind]
  simp only [List.foldl_append, foldl_onEvent_data]
  simp [onEvent]

/-- Witness for C13: the regular expression `/data/` of the test suite finds the five
objects named `data…` and leaves out the directory marker. -/
theorem find_emits_passing_nodes_witness :
    (findPaths exampleSink (storeClient findStore) (regExpOptions false)).outcome
      = some (Outcome.resolved
          ["data1.txt".toList, "data2.txt".toList, "testdir/data1.txt".toList,
           "testdir/data2.txt".toList, "testdir/data3.txt".toList]) := by
  rw [(find_emits_passing_nodes exampleSink (storeClient findStore) (regExpOptions false)
    (listStore findStore (undelimitedListing exampleSink "root/".toList))
    rfl (by decide) ⟨rfl, rfl⟩ trivial).2]
  decide

/-- C13, as stated, fails for a `RegExp` with the `g` flag: `test` then starts at
`lastIndex`, which the call before has left behind. With `namePattern: /data/g` on the
bucket of the test suite, five entries pass (their names match the pattern), but
`findPaths` resolves with three of them: after each hit the next name is searched from
index 4 and fails. -/
theorem find_global_regExp_misses_entries :
    hasMore (listStore findStore (undelimitedListing exampleSink "root/".toList)) = false ∧
    ((findStore.map (fun child => _makeContentsNode exampleSink child none)).filter
        (passes (regExpOptions true))).map (fun n => n.relPath)
      = ["data1.txt".toList, "data2.txt".toList, "testdir/data1.txt".toList,
         "testdir/data2.txt".toList, "testdir/data3.txt".toList] ∧
    (findPaths exampleSink (storeClient findStore) (regExpOptions true)).outcome
      = some (Outcome.resolved
          ["data1.txt".toList, "testdir/data1.txt".toList, "testdir/data3.txt".toList]) ∧
    (findPaths exampleSink (storeClient findStore) (regExpOptions true)).outcome
      ≠ some (Outcome.resolved
          (((findStore.map (fun child => _makeContentsNode exampleSink child none)).filter
            (passes (regExpOptions true))).map (fun n => n.relPath))) := by
  decide

/-! ## `rm`: the delete loop -/

theorem take_min_length (keys : List Str) (n : Nat) :
    keys.take (min keys.length n) = keys.take n := by
  rw [List.take_eq_take]
  omega

theorem drop_min_length (keys : List Str) (n : Nat) :
    keys.drop (min keys.length n) = keys.drop n := by
  by_cases h : keys.length ≤ n
  · rw [Nat.min_eq_left h, List.drop_length, List.drop_eq_nil_of_le h]
  · rw [Nat.min_eq_right (by omega)]

/-- The test `!response.Deleted || response.Deleted.length == 0`. -/
theorem zero_deleted_iff (response : DeleteObjectsOutput) :
    (response.Deleted.isNone || response.Deleted == some []) = true
      ↔ deletedCount response = 0 := by
  unfold deletedCount
  cases h : response.Deleted with
  | none => simp
  | some ks =>
    cases ks with
    | nil => simp
    | cons k rest => simp

theorem chunksAux_nil (fuel : Nat) : chunksAux fuel [] = [] := by
  cases fuel <;> simp [chunksAux]

/-- The chunks, concatenated in order, are the key list. -/
theorem chunksAux_join (fuel : Nat) (keys : List Str) (h : keys.length ≤ fuel) :
    (chunksAux fuel keys).flatten = keys := by
  induction fuel generalizing keys with
  | zero =>
    have hnil : keys = [] := List.length_eq_zero.mp (by omega)
    subst hnil
    rfl
  | succ fuel ih =>
    unfold chunksAux
    by_cases hk : keys.length > 0
    · simp only [hk, if_true, List.flatten_cons]
      rw [ih (keys.drop 1000) (by rw [List.length_drop]; omega), List.take_append_drop]
    · have hnil : keys = [] := List.length_eq_zero.mp (by omega)
      subst hnil
      simp

/-- Every chunk holds at least one key and at most 1000. -/
theorem chunksAux_length_le (fuel : Nat) (keys : List Str) :
    ∀ c ∈ chunksAux fuel keys, 0 < c.length ∧ c.length ≤ 1000 := by
  induction fuel generalizing keys with
  | zero => simp [chunksAux]
  | succ fuel ih =>
    unfold chunksAux
    by_cases hk : keys.length > 0
    · simp only [hk, if_true, List.mem_cons]
      rintro c (rfl | hc)
      · rw [List.length_take]
        omega
      · exact ih _ c hc
    · simp [hk]

/-- Every chunk but the last holds exactly 1000 keys. -/
theorem chunksAux_dropLast_length (fuel : Nat) (keys : List Str) :
    ∀ c ∈ (chunksAux fuel keys).dropLast, c.length = 1000 := by
  induction fuel generalizing keys with
  | zero => simp [chunksAux]
  | succ fuel ih =>
    unfold chunksAux
    by_cases hk : keys.length > 0
    · simp only [hk, if_true]
      cases hrest : chunksAux fuel (keys.drop 1000) with
      | nil => simp
      | cons d ds =>
        rw [List.dropLast_cons₂]
        intro c hmem
        rcases List.mem_cons.mp hmem with rfl | hc
        · have hlong : 1000 < keys.length := by
            by_contra hle
            rw [List.drop_eq_nil_of_le (by omega), chunksAux_nil] at hrest
            cases hrest
          rw [List.length_take]
          omega
        · rw [← hrest] at hc
          exact ih _ c hc
    · simp [hk]

/-- There are `ceil(n / 1000)` chunks. -/
theorem chunksAux_length (fuel : Nat) (keys : List Str) (h : keys.length ≤ fuel) :
    (chunksAux fuel keys).length = (keys.length + 999) / 1000 := by
  induction fuel generalizing keys with
  | zero =>
    have hnil : keys = [] := List.length_eq_zero.mp (by omega)
    subst hnil
    rfl
  | succ fuel ih =>
    unfold chunksAux
    by_cases hk : keys.length > 0
    · simp only [hk, if_true, List.length_cons]
      rw [ih (keys.drop 1000) (by rw [List.length_drop]; omega), List.length_drop]
      omega
    · have hnil : keys = [] := List.length_eq_zero.mp (by omega)
      subst hnil
      simp

/-- The keys of every chunk are keys of the list. -/
theorem mem_of_mem_chunksAux (fuel : Nat) (keys : List Str) :
    ∀ c ∈ chunksAux fuel keys, ∀ k ∈ c, k ∈ keys := by
  induction fuel generalizing keys with
  | zero => simp [chunksAux]
  | succ fuel ih =>
    unfold chunksAux
    by_cases hk : keys.length > 0
    · simp only [hk, if_true, List.mem_cons]
      rintro c (rfl | hc) k hkc
      · exact List.mem_of_mem_take hkc
      · exact List.mem_of_mem_drop (ih _ c hc k hkc)
    · simp [hk]

/-- One pass of the loop of `rm` on a non-empty key list. -/
theorem deleteBatches_step (sink : Sink) (client : S3Client) (fuel : Nat) (keys : List Str)
    (result : List DeleteObjectsOutput) (r : Run (List DeleteObjectsOutput))
    (hk : keys.length > 0) :
    deleteBatches sink client (fuel + 1) keys result r
      = match client.deleteObjects sink.bucket (keys.take 1000) with
        | Except.error e =>
          (r.sent (Command.deleteObjects sink.bucket (keys.take 1000))).reject e
        | Except.ok response =>
          if deletedCount response = 0 then
            (r.sent (Command.deleteObjects sink.bucket (keys.take 1000))).reject
              (JSError.response response)
          else
            deleteBatches sink client fuel (keys.drop 1000) (result ++ [response])
              (r.sent (Command.deleteObjects sink.bucket (keys.take 1000))) := by
  rw [deleteBatches]
  simp only [hk, if_true, take_min_length, drop_min_length]
  cases hd : client.deleteObjects sink.bucket (keys.take 1000) with
  | error e => rfl
  | ok response =>
    simp only
    by_cases hz : deletedCount response = 0
    · simp [hz, (zero_deleted_iff response).mpr hz]
    · have hnz : ¬ ((response.Deleted.isNone || response.Deleted == some []) = true) :=
        fun h => hz ((zero_deleted_iff response).mp h)
      simp [hz, hnz]

/-- The loop of `rm` when every batch is answered with at least one deletion: all chunks
are sent, in order, and the promise is resolved with the replies. -/
theorem deleteBatches_all_deleted (sink : Sink) (client : S3Client) (fuel : Nat) :
    ∀ (keys : List Str) (result : List DeleteObjectsOutput)
      (r : Run (List DeleteObjectsOutput)) (responses : List DeleteObjectsOutput),
      r.outcome = none → keys.length ≤ fuel →
      List.Forall₂ (fun batch response =>
          client.deleteObjects sink.bucket batch = Except.ok response
            ∧ 0 < deletedCount response)
        (chunksAux fuel keys) responses →
      deleteBatches sink client fuel keys result r
        = { requests := r.requests
              ++ (chunksAux fuel keys).map (Command.deleteObjects sink.bucket)
            outcome := some (Outcome.resolved (result ++ responses)) } := by
  induction fuel with
  | zero =>
    intro keys result r responses hr hlen hall
    have hnil : keys = [] := List.length_eq_zero.mp (by omega)
    subst hnil
    simp only [chunksAux, List.forall₂_nil_left_iff] at hall
    subst hall
    simp [deleteBatches, chunksAux, Run.resolve, hr]
  | succ fuel ih =>
    intro keys result r responses hr hlen hall
    by_cases hk : keys.length > 0
    · rw [deleteBatches_step sink client fuel keys result r hk]
      simp only [chunksAux, hk, if_true] at hall ⊢
      obtain ⟨response, rest, ⟨hsend, hcount⟩, hrest, rfl⟩ := List.forall₂_cons_left_iff.mp hall
      simp only [hsend]
      rw [if_neg (by omega)]
      rw [ih (keys.drop 1000) (result ++ [response]) _ rest (by simp [Run.sent, hr])
        (by rw [List.length_drop]; omega) hrest]
      simp [Run.sent]
    · have hnil : keys = [] := List.length_eq_zero.mp (by omega)
      subst hnil
      simp only [chunksAux_nil, List.forall₂_nil_left_iff] at hall
      subst hall
      simp [deleteBatches, chunksAux, Run.resolve, hr]

/-- The loop of `rm` when the batches `pre` are answered with deletions and the next
batch `b` is answered with none: the loop stops after `b` and the promise is rejected
with that reply. -/
theorem deleteBatches_zero_deleted (sink : Sink) (client : S3Client) (fuel : Nat) :
    ∀ (keys : List Str) (result : List DeleteObjectsOutput)
      (r : Run (List DeleteObjectsOutput)) (pre : List (List Str)) (b : List Str)
      (post : List (List Str)) (responses : List DeleteObjectsOutput)
      (response : DeleteObjectsOutput),
      r.outcome = none →
      chunksAux fuel keys = pre ++ b :: post →
      List.Forall₂ (fun batch response =>
          client.deleteObjects sink.bucket batch = Except.ok response
            ∧ 0 < deletedCount response)
        pre responses →
      client.deleteObjects sink.bucket b = Except.ok response →
      deletedCount response = 0 →
      deleteBatches sink client fuel keys result r
        = { requests := r.requests
              ++ (pre ++ [b]).map (Command.deleteObjects sink.bucket)
            outcome := some (Outcome.rejected (JSError.response response)) } := by
  induction fuel with
  | zero =>
    intro keys result r pre b post responses response hr hchunks
    simp [chunksAux] at hchunks
  | succ fuel ih =>
    intro keys result r pre b post responses response hr hchunks hall hsend hzero
    by_cases hk : keys.length > 0
    · rw [deleteBatches_step sink client fuel keys result r hk]
      simp only [chunksAux, hk, if_true] at hchunks
      cases pre with
      | nil =>
        simp only [List.nil_append, List.cons.injEq] at hchunks
        rw [hchunks.1, hsend]
        simp [hzero, Run.reject, Run.sent, hr]
      | cons p pre2 =>
        simp only [List.cons_append, List.cons.injEq] at hchunks
        obtain ⟨rp, rest, ⟨hp, hcount⟩, hrest, rfl⟩ := List.forall₂_cons_left_iff.mp hall
        rw [hchunks.1, hp]
        simp only
        rw [if_neg (by omega)]
        rw [ih (keys.drop 1000) (result ++ [rp]) _ pre2 b post rest response
          (by simp [Run.sent, hr]) hchunks.2 hrest hsend hzero]
        simp [Run.sent]
    · have hnil : keys = [] := List.length_eq_zero.mp (by omega)
      subst hnil
      simp [chunksAux] at hchunks

/-- Past its guard and its listing, `rm` is its delete loop run on `keysToDelete`. -/
theorem rm_eq_deleteBatches (sink : Sink) (client : S3Client) (path : Str) (recursive : Bool)
    (keys : List Str)
    (hallowed : isAllowedPath path = true)
    (hkeys : keysToDelete sink client path recursive = some keys) :
    keys ≠ [] ∧
    rm sink client path recursive
      = deleteBatches sink client keys.length keys []
          { requests := sentBeforeDeleting sink path recursive, outcome := none } := by
  unfold keysToDelete at hkeys
  unfold rm sentBeforeDeleting
  cases recursive with
  | false =>
    simp only [Bool.not_false, if_true, Option.some.injEq] at hkeys
    subst hkeys
    simp [hallowed, Run.start]
  | true =>
    simp only [Bool.not_true, Bool.false_eq_true, if_false, undelimitedListing] at hkeys
    simp only [hallowed, Bool.not_true, Bool.false_eq_true, if_false, undelimitedListing]
    cases hl : client.listObjectsV2
        { Bucket := sink.bucket, Prefix := _createCombinedPath sink path, Delimiter := none,
          ContinuationToken := none } with
    | error e =>
      rw [hl] at hkeys
      simp at hkeys
    | ok data =>
      rw [hl] at hkeys
      simp only at hkeys ⊢
      cases hc : data.Contents with
      | none =>
        rw [hc] at hkeys
        simp at hkeys
      | some contents =>
        cases contents with
        | nil =>
          rw [hc] at hkeys
          simp at hkeys
        | cons c cs =>
          rw [hc] at hkeys
          simp only [Option.some.injEq] at hkeys
          subst hkeys
          simp [Run.sent, Run.start]

/-- C12. For the non-empty key list `rm` has to delete (the combined path alone, or the
keys of the listing), the batches are the consecutive chunks of the list: their
concatenation is the list, each holds between 1 and 1000 keys, each but the last exactly
1000, and there are `ceil(n / 1000)` of them. `rm` sends them one after the other: when
every batch is answered with at least one deletion it resolves with the list of the
`ceil(n / 1000)` replies; when the batches `pre` are and the next batch `b` is answered
with zero deletions, it rejects with that reply and `b` is the last batch it sends. -/
theorem rm_deletes_in_batches (sink : Sink) (client : S3Client) (path : Str)
    (recursive : Bool) (keys : List Str)
    (hallowed : isAllowedPath path = true)
    (hkeys : keysToDelete sink client path recursive = some keys) :
    keys ≠ [] ∧
    (chunks keys).flatten = keys ∧
    (∀ c ∈ chunks keys, 0 < c.length ∧ c.length ≤ 1000) ∧
    (∀ c ∈ (chunks keys).dropLast, c.length = 1000) ∧
    (chunks keys).length = (keys.length + 999) / 1000 ∧
    (∀ responses : List DeleteObjectsOutput,
      List.Forall₂ (fun batch response =>
          client.deleteObjects sink.bucket batch = Except.ok response
            ∧ 0 < deletedCount response)
        (chunks keys) responses →
      rm sink client path recursive
          = { requests := sentBeforeDeleting sink path recursive
                ++ (chunks keys).map (Command.deleteObjects sink.bucket)
              outcome := some (Outcome.resolved responses) } ∧
        responses.length = (keys.length + 999) / 1000) ∧
    (∀ (pre : List (List Str)) (b : List Str) (post : List (List Str))
        (responses : List DeleteObjectsOutput) (response : DeleteObjectsOutput),
      chunks keys = pre ++ b :: post →
      List.Forall₂ (fun batch response =>
          client.deleteObjects sink.bucket batch = Except.ok response
            ∧ 0 < deletedCount response)
        pre responses →
      client.deleteObjects sink.bucket b = Except.ok response →
      deletedCount response = 0 →
      rm sink client path recursive
        = { requests := sentBeforeDeleting sink path recursive
              ++ (pre ++ [b]).map (Command.deleteObjects sink.bucket)
            outcome := some (Outcome.rejected (JSError.response response)) }) := by
  obtain ⟨hne, hrm⟩ := rm_eq_deleteBatches sink client path recursive keys hallowed hkeys
  refine ⟨hne, chunksAux_join _ keys (Nat.le_refl _), chunksAux_length_le _ keys,
    chunksAux_dropLast_length _ keys, chunksAux_length _ keys (Nat.le_refl _), ?_, ?_⟩
  · intro responses hall
    constructor
    · rw [hrm, deleteBatches_all_deleted sink client keys.length keys [] _ responses rfl
        (Nat.le_refl _) hall]
      simp [chunks]
    · rw [← hall.length_eq]
      exact chunksAux_length _ keys (Nat.le_refl _)
  · intro pre b post responses response hchunks hall hsend hzero
    rw [hrm, deleteBatches_zero_deleted sink client keys.length keys [] _ pre b post
      responses response rfl hchunks hall hsend hzero]

/-- Witness for C12: `rm('testdir')` on the directory of the test suite lists it and
deletes its four keys in one batch. -/
theorem rm_deletes_in_batches_witness :
    rm exampleSink (storeClient testdirStore) "testdir".toList true
      = { requests :=
            [Command.listObjectsV2 (undelimitedListing exampleSink "root/testdir".toList),
             Command.deleteObjects "b".toList (testdirStore.map (fun o => o.Key))]
          outcome := some (Outcome.resolved
            [{ Deleted := some (testdirStore.map (fun o => o.Key)) }]) } := by
  have hchunks : chunks (testdirStore.map (fun o : S3Object => o.Key))
      = [testdirStore.map (fun o : S3Object => o.Key)] := by decide
  have h := (rm_deletes_in_batches exampleSink (storeClient testdirStore) "testdir".toList
    true (testdirStore.map (fun o : S3Object => o.Key)) (by decide)
    (by decide)).2.2.2.2.2.1
    [{ Deleted := some (testdirStore.map (fun o : S3Object => o.Key)) }]
    (by rw [hchunks]; exact List.Forall₂.cons ⟨rfl, by decide⟩ List.Forall₂.nil)
  rw [hchunks] at h
  exact h.1

/-! ## `rm`: the listing -/

theorem requests_reject {α : Type} (e : JSError) (r : Run α) :
    (r.reject e).requests = r.requests := by
  unfold Run.reject
  cases r.outcome <;> rfl

theorem requests_resolve {α : Type} (value : α) (r : Run α) :
    (r.resolve value).requests = r.requests := by
  unfold Run.resolve
  cases r.outcome <;> rfl

/-- Every command the loop of `rm` adds is the delete of a chunk of the key list. -/
theorem deleteBatches_requests (sink : Sink) (client : S3Client) (fuel : Nat) :
    ∀ (keys : List Str) (result : List DeleteObjectsOutput)
      (r : Run (List DeleteObjectsOutput)),
      ∀ c ∈ (deleteBatches sink client fuel keys result r).requests,
        c ∈ r.requests
          ∨ ∃ batch ∈ chunksAux fuel keys, c = Command.deleteObjects sink.bucket batch := by
  induction fuel with
  | zero =>
    intro keys result r c hc
    left
    unfold deleteBatches at hc
    by_cases hk : keys.length > 0
    · simpa [hk] using hc
    · simpa [hk, requests_resolve] using hc
  | succ fuel ih =>
    intro keys result r c hc
    by_cases hk : keys.length > 0
    · rw [deleteBatches_step sink client fuel keys result r hk] at hc
      simp only [chunksAux, hk, if_true, List.mem_cons]
      cases hd : client.deleteObjects sink.bucket (keys.take 1000) with
      | error e =>
        rw [hd] at hc
        simp only [requests_reject, Run.sent, List.mem_append, List.mem_singleton] at hc
        rcases hc with h | h
        · exact Or.inl h
        · exact Or.inr ⟨_, Or.inl rfl, h⟩
      | ok response =>
        rw [hd] at hc
        simp only at hc
        by_cases hz : deletedCount response = 0
        · rw [if_pos hz] at hc
          simp only [requests_reject, Run.sent, List.mem_append, List.mem_singleton] at hc
          rcases hc with h | h
          · exact Or.inl h
          · exact Or.inr ⟨_, Or.inl rfl, h⟩
        · rw [if_neg hz] at hc
          rcases ih _ _ _ c hc with h | ⟨batch, hb, hcb⟩
          · simp only [Run.sent, List.mem_append, List.mem_singleton] at h
            rcases h with h | h
            · exact Or.inl h
            · exact Or.inr ⟨_, Or.inl rfl, h⟩
          · exact Or.inr ⟨batch, Or.inr hb, hcb⟩
    · left
      unfold deleteBatches at hc
      simpa [hk, requests_resolve] using hc

/-- Recursive `rm` lists once, without a continuation token, and deletes keys of that
one reply only, truncated or not. -/
theorem rm_deletes_first_page_only (sink : Sink) (client : S3Client) (path : Str)
    (data : ListObjectsV2Output)
    (hlist : client.listObjectsV2
      (undelimitedListing sink (_createCombinedPath sink path)) = Except.ok data) :
    ∀ c ∈ (rm sink client path true).requests,
      c = Command.listObjectsV2 (undelimitedListing sink (_createCombinedPath sink path))
        ∨ ∃ batch, c = Command.deleteObjects sink.bucket batch
            ∧ ∀ k ∈ batch, k ∈ (data.Contents.getD []).map (fun content => content.Key) := by
  intro c hc
  unfold rm at hc
  by_cases ha : isAllowedPath path = true
  · unfold undelimitedListing at hlist
    simp only [ha, Bool.not_true, Bool.false_eq_true, if_false, hlist] at hc
    cases hcontents : data.Contents with
    | none =>
      rw [hcontents] at hc
      simp only [requests_reject, Run.sent, Run.start, List.nil_append,
        List.mem_singleton] at hc
      exact Or.inl hc
    | some contents =>
      cases contents with
      | nil =>
        rw [hcontents] at hc
        simp only [requests_reject, Run.sent, Run.start, List.nil_append,
          List.mem_singleton] at hc
        exact Or.inl hc
      | cons o os =>
        rw [hcontents] at hc
        simp only at hc
        rcases deleteBatches_requests sink client _ _ _ _ c hc with h | ⟨batch, hb, hcb⟩
        · simp only [Run.sent, Run.start, List.nil_append, List.mem_singleton] at h
          exact Or.inl h
        · exact Or.inr ⟨batch, hcb, fun k hk => by
            simpa using mem_of_mem_chunksAux _ _ batch hb k hk⟩
  · simp [ha] at hc

/-- C11 (code defect). Recursive `rm` sends one listing and never asks for a second
page. On a listing cut in two pages, `rm('dir/')` deletes the key of the first page in
one batch and resolves; the key `root/dir/b.txt` of the second page is neither listed
nor deleted, where the claim expects the keys of every page in the delete batches. -/
theorem rm_ignores_truncation :
    hasMore firstPage = true ∧
    rm exampleSink twoPageClient "dir/".toList true
      = { requests :=
            [Command.listObjectsV2 (undelimitedListing exampleSink "root/dir/".toList),
             Command.deleteObjects "b".toList ["root/dir/a.txt".toList]]
          outcome := some (Outcome.resolved [{ Deleted := some ["root/dir/a.txt".toList] }]) } ∧
    secondPage.Contents
      = some [{ Key := "root/dir/b.txt".toList, Size := 2, LastModified := 0 }] := by
  decide

end FileSinkS3
